import Mathlib

/-!
# cix / cixd: a shallow embedding of the client and the server

Sources: `src/cix.cpp` (the client) and `src/remote/cixd.cpp` (the server).
`protocol.h`, `sockets.h` and `logstream.h` are not among the sources; what the
two programs need from them is modelled below and marked as such.

Conventions of the embedding

* a `std::string`, a `char` buffer and a file content are all `Str`, a list of
  characters; the terminator byte is `NUL`;
* integer fields are `Nat`, reduced modulo the width of the C++ type where the
  source assigns a wider value to them;
* the socket is a reliable, ordered stream of elements; a header travels as one
  element (its byte layout lives in `protocol.h`), a payload as its bytes;
* a `log << a << b << endl` statement is kept as the list of its operands;
  headers, host names and sockets are kept as what was printed, not as text;
* a call that cannot complete (a `recv_packet` without the bytes it waits for,
  a read that throws an exception nothing catches) gives `none`.
-/

namespace Cix

/-! ## Strings and C strings -/

/-- Contents of a `std::string`, of a `char` array, or of a file. -/
abbrev Str := List Char

/-- The terminator byte of a C string. -/
def NUL : Char := Char.ofNat 0

/-- The blank that separates a keyword from its argument. -/
def SPACE : Char := Char.ofNat 32

/-- The newline written by `std::endl`. -/
def NEWLINE : Char := Char.ofNat 10

/-- The value of `std::string::npos` for a 64-bit `size_t`. -/
def npos : Nat := 2 ^ 64 - 1

/-- What a reader of `s.c_str()` sees: the characters before the first
terminator (a `std::string` may hold embedded terminators, its `c_str()` ends
with one). -/
def c_str (s : Str) : Str := s.takeWhile (fun c => c != NUL)

/-- `s.find_first_of (c)`: the index of the first `c`, or `npos`. -/
def find_first_of (s : Str) (c : Char) : Nat :=
  match s with
  | [] => npos
  | x :: rest =>
    if x = c then 0
    else
      let r := find_first_of rest c
      if r = npos then npos else r + 1

/-- `s.substr (pos)`: the characters from index `pos` on. The source only calls
it with `pos <= s.size()`, where it does not throw. -/
def substr_from (s : Str) (pos : Nat) : Str := s.drop pos

/-- `s.substr (pos, n)`: at most `n` characters from index `pos` on. -/
def substr (s : Str) (pos n : Nat) : Str := (s.drop pos).take n

/-- `s[i]` of a `std::string` for `i <= s.size()`: the character at `i`, and the
terminator at `i = s.size()`. -/
def char_at (s : Str) (i : Nat) : Char := s.getD i NUL

/-- `strncpy (dst, src, n)` where `src` is a C string: the first `n` characters
of `src`, padded with terminators up to `n` bytes. When `src` has `n` characters
or more, no terminator is written. -/
def strncpy (src : Str) (n : Nat) : Str :=
  (c_str src).take n ++ List.replicate (n - (c_str src).length) NUL

/-- Reading a `char` array as a C string (`string::append (const char*)`,
`ifstream (const char*)`): the characters before the first terminator. When the
array holds no terminator the read runs on into the bytes that follow it in
memory, `beyond`. -/
def read_c_string (buffer beyond : Str) : Str := c_str (buffer ++ beyond)

/-- The text that passes through a handler's `char buffer[0x1000]`:
`strncpy (buffer, content.c_str (), sizeof (buffer)); output.append (buffer);`.
`beyond` is what follows the buffer in memory. -/
def buffered (content beyond : Str) : Str :=
  read_c_string (strncpy content 0x1000) beyond

/-! ## protocol.h -/

/-- Modelled from the spec: `protocol.h` is not among the sources. The command
tag of a header, with the eleven names the spec lists; `unknown raw` stands for
any other value of the underlying byte. -/
inductive cix_command where
  | ERROR | EXIT | GET | HELP | LS | PUT | RM | ACK | NAK | FILEOUT | LSOUT
  | unknown (raw : Nat)
  deriving DecidableEq, Repr

/-- Modelled from the spec: the two sizes `protocol.h` fixes, taken as
parameters: the capacity of `header.filename` and the width in bits of
`header.nbytes`. -/
structure protocol where
  FILENAME_SIZE : Nat
  NBYTES_BITS : Nat
  deriving DecidableEq, Repr

/-- Modelled from the spec: the header, `filename` being the whole
`char [FILENAME_SIZE]` array. -/
structure cix_header where
  command : cix_command
  nbytes : Nat
  filename : Str
  deriving DecidableEq, Repr

/-- Assignment of a `size_t` or an `int` to `header.nbytes`. -/
def to_nbytes (P : protocol) (n : Nat) : Nat := n % 2 ^ P.NBYTES_BITS

/-- `memset (header.filename, 0, FILENAME_SIZE)`. -/
def cleared_filename (P : protocol) : Str := List.replicate P.FILENAME_SIZE NUL

/-! ## The client's line parser (`main` of cix.cpp, lines 186-202) -/

/-- The table `command_map` of cix.cpp. -/
def command_map : List (Str × cix_command) :=
  [ ("exit".toList, cix_command.EXIT),
    ("get".toList, cix_command.GET),
    ("help".toList, cix_command.HELP),
    ("ls".toList, cix_command.LS),
    ("put".toList, cix_command.PUT),
    ("rm".toList, cix_command.RM),
    ("ack".toList, cix_command.ACK) ]

/-- `filename = line.substr (line.find_first_of (' ') + 1)`, the sum taken in
`size_t`, so that `npos + 1` is `0`. -/
def parse_filename (line : Str) : Str :=
  substr_from line ((find_first_of line SPACE + 1) % 2 ^ 64)

/-- The three-way truncation of the line that `main` performs before the
lookup. -/
def truncate_line (line : Str) : Str :=
  if char_at line 0 = 'r' ∧ char_at line 1 = 'm' then
    substr line 0 2
  else if char_at line 0 = 'e' then
    substr line 0 4
  else if char_at line 0 ≠ 's' then
    substr line 0 3
  else
    line

/-- `command_map.find (line)`, with `ERROR` when the key is absent. -/
def lookup_command (key : Str) : cix_command :=
  match command_map.lookup key with
  | none => cix_command.ERROR
  | some cmd => cmd

/-! ## Files -/

/-- Outcome of opening a path for reading (`ifstream ifs (path)`) and of reading
it to its end through the `istreambuf_iterator` pair. -/
inductive open_result where
  /-- the path does not open: the platform error code -/
  | failed (errno : Nat)
  /-- the path opens and reads as `content` -/
  | opened (content : Str)
  /-- the path opens and cannot be read (a directory, such as `.`): the stream
  tests as open, and the first read makes the stream buffer throw
  `ios_base::failure` -/
  | unreadable
  deriving DecidableEq, Repr

/-- A directory, seen through what opening and reading each path gives.
Creating and overwriting a file succeed; whether a path can be unlinked is
part of the state of the process that asks (`server.unlink_errno`). -/
abbrev filesystem := Str → open_result

/-- The error code of a path that does not exist. -/
def ENOENT : Nat := 2

/-- Effect of `ofstream outfile (path); outfile << text; outfile.close ()`: the
file is created or truncated and holds `text`. -/
def fs_write (fs : filesystem) (path text : Str) : filesystem :=
  fun p => if p = path then open_result.opened text else fs p

/-- The directory after an `unlink (path)` that succeeds. -/
def fs_unlink (fs : filesystem) (path : Str) : filesystem :=
  fun p => if p = path then open_result.failed ENOENT else fs p

/-! ## The stream between client and server -/

/-- One element of the byte stream: a whole header (`sizeof header` bytes whose
layout belongs to `protocol.h`) or one payload byte. -/
inductive elem where
  | hdr (h : cix_header)
  | byte (c : Char)
  deriving DecidableEq, Repr

/-- What `send_packet (sock, buffer, n)` puts on the stream for the `n`
characters `bytes`. -/
def payload (bytes : Str) : List elem := bytes.map elem.byte

/-- `recv_packet (sock, &header, sizeof header)` on the pending input: the
header at its front and the input left. `none` when no header is there: the
receiver waits, or the stream is out of step. -/
def recv_header : List elem → Option (cix_header × List elem)
  | elem.hdr h :: rest => some (h, rest)
  | _ => none

/-- `recv_packet (sock, buffer, n)` on the pending input: the next `n` payload
bytes and the input left. `none` when they are not there. -/
def recv_bytes : Nat → List elem → Option (Str × List elem)
  | 0, input => some ([], input)
  | n + 1, elem.byte c :: rest =>
    match recv_bytes n rest with
    | some (bytes, left) => some (c :: bytes, left)
    | none => none
  | _ + 1, _ => none

/-! ## Log -/

/-- One operand of a `log << ...` statement. -/
inductive log_arg where
  | lit (text : String)
  | str (s : Str)
  | header (h : cix_header)
  | num (n : Nat)
  | strerror (errno : Nat)
  deriving DecidableEq, Repr

/-- One `log << a << b << ... << endl` statement. -/
abbrev log_line := List log_arg

/-! ## The server (cixd.cpp) -/

/-- Outcome of `popen ("ls -l 2>&1", "r")` followed by reading the pipe to its
end and `pclose`: the error code of a failed `popen`, or the text the command
writes and the status `pclose` returns. -/
inductive popen_result where
  | failed (errno : Nat)
  | pipe (output : Str) (status : Int)
  deriving DecidableEq, Repr

/-- State of one worker of the server and of its end of the connection. -/
structure server where
  /-- the working directory -/
  fs : filesystem
  /-- what running `ls -l 2>&1` in a given directory gives -/
  ls_cmd : filesystem → popen_result
  /-- what `unlink (path)` gives for a path that is there: `none` when the path
  is removed, the error code when it is not (`EACCES` or `EROFS` in a directory
  that cannot be written, `EISDIR` or `EPERM` for a directory) -/
  unlink_errno : Str → Option Nat
  /-- the global `errno` -/
  errno : Nat
  /-- elements received from the client and not yet read by `recv_packet` -/
  inbox : List elem
  /-- every element sent to the client so far, in order -/
  outbox : List elem
  /-- the lines written to `log` so far -/
  log : List log_line
  /-- the bytes that follow `header.filename` in memory -/
  after_header : Str
  /-- the bytes that follow the handlers' `char buffer[0x1000]` in memory -/
  after_buffer : Str

/-- `log << ... << endl` in the server. -/
def server.logged (s : server) (line : log_line) : server :=
  { s with log := s.log ++ [line] }

/-- `send_packet (client_sock, &header, sizeof header)`. -/
def server.send_header (s : server) (header : cix_header) : server :=
  { s with outbox := s.outbox ++ [elem.hdr header] }

/-- `send_packet (client_sock, bytes, n)` for the `n` characters `bytes`. -/
def server.send_bytes (s : server) (bytes : Str) : server :=
  { s with outbox := s.outbox ++ payload bytes }

/-- The path the server opens for `header.filename`, the array read as a C
string. -/
def server.path (s : server) (header : cix_header) : Str :=
  read_c_string header.filename s.after_header

/-- `reply_get` of cixd.cpp. The second `ifs.open` is called on a stream that is
already open: it fails without a system call and leaves the file attached, and
the `istreambuf_iterator` pair reads the whole file from the stream buffer.
`none` when that read throws `ios_base::failure`: neither `run_server` nor
`main` catches it, and the worker ends without sending anything. -/
def reply_get (P : protocol) (s : server) (header : cix_header) : Option server :=
  let header := { header with command := cix_command.GET }
  match s.fs (s.path header) with
  | open_result.failed e =>
    let s := { s with errno := e }
    let s := s.logged [log_arg.lit "get -l: file does not exist: ", log_arg.strerror s.errno]
    let header := { header with command := cix_command.NAK }
    let header := { header with nbytes := to_nbytes P s.errno }
    some (s.send_header header)
  | open_result.unreadable => none
  | open_result.opened content =>
    let get_output := buffered content s.after_buffer
    let header := { header with command := cix_command.FILEOUT }
    let header := { header with nbytes := to_nbytes P get_output.length }
    let header := { header with filename := cleared_filename P }
    let s := s.logged [log_arg.lit "sending header ", log_arg.header header]
    let s := s.send_header header
    let s := s.send_bytes get_output
    some (s.logged [log_arg.lit "sent ", log_arg.num get_output.length, log_arg.lit " bytes"])

/-- The characters `fgets` keeps when `k` more fit in the buffer: up to `k`
characters of the pipe, ending after the first newline. -/
def fgets_chars : Nat → Str → Str
  | 0, _ => []
  | _ + 1, [] => []
  | k + 1, c :: rest => if c = NEWLINE then [c] else c :: fgets_chars k rest

/-- `fgets (buffer, n, ls_pipe)`: `none` for `nullptr` (end of the pipe and
nothing read), else the array `buffer` afterwards, terminator included, and the
pipe left. -/
def fgets (n : Nat) (pipe : Str) : Option (Str × Str) :=
  match pipe with
  | [] => none
  | _ :: _ =>
    let line := fgets_chars (n - 1) pipe
    some (line ++ [NUL], pipe.drop line.length)

/-- The loop `for (;;) { rc = fgets (...); if (rc == nullptr) break;
ls_output.append (buffer); }` of `reply_ls`, with a bound on the number of
iterations; `none` when the bound is reached before the `break`. -/
def read_ls_pipe : Nat → Str → Str → Option Str
  | 0, _, _ => none
  | fuel + 1, pipe, ls_output =>
    match fgets 0x1000 pipe with
    | none => some ls_output
    | some (buffer, rest) => read_ls_pipe fuel rest (ls_output ++ c_str buffer)

/-- The string `ls_output` that `reply_ls` collects from the pipe. Every pass of
the loop takes at least one character, so `output.length + 1` passes reach the
`break` (`read_ls_pipe_terminates`). -/
def collect_ls_output (output : Str) : Str :=
  (read_ls_pipe (output.length + 1) output []).getD []

/-- `reply_ls` of cixd.cpp. -/
def reply_ls (P : protocol) (s : server) (header : cix_header) : server :=
  match s.ls_cmd s.fs with
  | popen_result.failed e =>
    let s := { s with errno := e }
    let s := s.logged [log_arg.lit "ls -l: popen failed: ", log_arg.strerror s.errno]
    let header := { header with command := cix_command.NAK }
    let header := { header with nbytes := to_nbytes P s.errno }
    s.send_header header
  | popen_result.pipe output status =>
    let ls_output := collect_ls_output output
    let s :=
      if status < 0 then
        s.logged [log_arg.lit "ls -l 2>&1", log_arg.lit ": ", log_arg.strerror s.errno]
      else
        s.logged [log_arg.lit "ls -l 2>&1", log_arg.lit ": exit ",
          log_arg.num (status.toNat >>> 8), log_arg.lit " signal ",
          log_arg.num (status.toNat &&& 0x7F), log_arg.lit " core ",
          log_arg.num (status.toNat >>> 7 &&& 1)]
    let header := { header with command := cix_command.LSOUT }
    let header := { header with nbytes := to_nbytes P ls_output.length }
    let header := { header with filename := cleared_filename P }
    let s := s.logged [log_arg.lit "sending header ", log_arg.header header]
    let s := s.send_header header
    let s := s.send_bytes ls_output
    s.logged [log_arg.lit "sent ", log_arg.num ls_output.length, log_arg.lit " bytes"]

/-- The tail shared by both branches of `reply_put`: the header becomes `ACK`,
its filename is cleared, and it is sent. -/
def reply_put_ack (P : protocol) (s : server) (header : cix_header) : server :=
  let header := { header with command := cix_command.ACK }
  let header := { header with filename := cleared_filename P }
  let s := s.logged [log_arg.lit "sending header ", log_arg.header header]
  s.send_header header

/-- `reply_put` of cixd.cpp. `none` when the `nbytes` payload bytes are not on
the stream. The file written holds the received bytes up to their first
terminator, then the newline of `endl`. -/
def reply_put (P : protocol) (s : server) (header : cix_header) : Option server :=
  if header.command ≠ cix_command.PUT then
    let s := s.logged [log_arg.lit "ls -l: popen failed: ", log_arg.strerror s.errno]
    let header := { header with command := cix_command.NAK }
    let header := { header with nbytes := to_nbytes P s.errno }
    let s := s.send_header header
    some (reply_put_ack P s header)
  else
    match recv_bytes header.nbytes s.inbox with
    | none => none
    | some (bytes, left) =>
      let s := { s with inbox := left }
      let s := s.logged [log_arg.lit "received ", log_arg.num header.nbytes, log_arg.lit " nbytes"]
      let buffer := bytes ++ [NUL]
      let s := { s with fs := fs_write s.fs (s.path header) (c_str buffer ++ [NEWLINE]) }
      some (reply_put_ack P s header)

/-- The statement `unlink (header.filename);` of `reply_rm`: the path is removed,
or `unlink` fails and sets `errno`; its return value is not looked at. -/
def server.unlink (s : server) (path : Str) : server :=
  match s.unlink_errno path with
  | none => { s with fs := fs_unlink s.fs path }
  | some e => { s with errno := e }

/-- `reply_rm` of cixd.cpp. The stream `ifs` is only tested, never read: a path
that opens and cannot be read passes the test like a file. -/
def reply_rm (P : protocol) (s : server) (header : cix_header) : server :=
  match s.fs (s.path header) with
  | open_result.failed e =>
    let s := { s with errno := e }
    let s := s.logged [log_arg.lit "rm -l: file does not exist: ", log_arg.strerror s.errno]
    let header := { header with command := cix_command.NAK }
    let header := { header with nbytes := to_nbytes P s.errno }
    s.send_header header
  | _ =>
    let s := s.unlink (s.path header)
    let header := { header with command := cix_command.ACK }
    let header := { header with filename := cleared_filename P }
    let s := s.logged [log_arg.lit "sending header ", log_arg.header header]
    s.send_header header

/-- One pass of the loop of `run_server`: a header is received and dispatched.
`none` when the pass cannot complete: no header is pending (the worker waits in
`recv_packet`), the payload of a `PUT` is not on the stream, or `reply_get`
throws and the worker ends. -/
def server_iter (P : protocol) (s : server) : Option server :=
  match recv_header s.inbox with
  | none => none
  | some (header, left) =>
    let s := { s with inbox := left }
    let s := s.logged [log_arg.lit "received header ", log_arg.header header]
    match header.command with
    | cix_command.GET => reply_get P s header
    | cix_command.LS => some (reply_ls P s header)
    | cix_command.PUT => reply_put P s header
    | cix_command.RM => some (reply_rm P s header)
    | _ => some (s.logged [log_arg.lit "invalid header from client:", log_arg.header header])

/-- The loop of `run_server`, for at most `fuel` passes: the state in which the
worker waits for input it does not have, or the state before the pass that
ended it. -/
def run_server (P : protocol) : Nat → server → server
  | 0, s => s
  | fuel + 1, s =>
    match server_iter P s with
    | none => s
    | some s1 => run_server P fuel s1

/-- The worker run until no pass completes: every pass takes at least one
element of the pending input, so `inbox.length` passes are enough
(`serve_waits`). -/
def serve (P : protocol) (s : server) : server := run_server P s.inbox.length s

/-! ## The client (cix.cpp) -/

/-- State of the client process and of its end of the connection. -/
structure client where
  /-- the local directory -/
  fs : filesystem
  /-- the global `errno` -/
  errno : Nat
  /-- the characters written to `cout` other than through `log` -/
  cout : Str
  /-- the lines written to `log` so far -/
  log : List log_line
  /-- the bytes that follow `char buffer[0x1000]` of `cix_put` in memory -/
  after_buffer : Str
  /-- every element sent to the server so far, in order -/
  sent : List elem
  /-- how many elements of the server's output `recv_packet` has read -/
  received : Nat

/-- The client and the worker that serves its connection. -/
structure world where
  client : client
  server : server

/-- `log << ... << endl` in the client. -/
def world.logged (w : world) (line : log_line) : world :=
  { w with client := { w.client with log := w.client.log ++ [line] } }

/-- Assignment to the client's `errno` by a failed system call. -/
def world.set_errno (w : world) (e : Nat) : world :=
  { w with client := { w.client with errno := e } }

/-- `send_packet (server, &header, sizeof header)` in the client. -/
def world.send_header (w : world) (header : cix_header) : world :=
  { client := { w.client with sent := w.client.sent ++ [elem.hdr header] },
    server := { w.server with inbox := w.server.inbox ++ [elem.hdr header] } }

/-- `send_packet (server, bytes, n)` in the client, for the `n` characters
`bytes`. -/
def world.send_bytes (w : world) (bytes : Str) : world :=
  { client := { w.client with sent := w.client.sent ++ payload bytes },
    server := { w.server with inbox := w.server.inbox ++ payload bytes } }

/-- `recv_packet (server, &header, sizeof header)` in the client: the worker
runs until no pass completes, then the next unread element of its output is
taken. `none` when that is not a header (the client waits for ever, the worker
has ended, or the stream is out of step). -/
def world.recv_header (P : protocol) (w : world) : Option (cix_header × world) :=
  let srv := serve P w.server
  match Cix.recv_header (srv.outbox.drop w.client.received) with
  | none => none
  | some (header, _) =>
    some (header, { client := { w.client with received := w.client.received + 1 },
                    server := srv })

/-- `recv_packet (server, buffer, n)` in the client. -/
def world.recv_bytes (P : protocol) (w : world) (n : Nat) : Option (Str × world) :=
  let srv := serve P w.server
  match Cix.recv_bytes n (srv.outbox.drop w.client.received) with
  | none => none
  | some (bytes, _) =>
    some (bytes, { client := { w.client with received := w.client.received + n },
                   server := srv })

/-- Modelled from the spec: the value of a freshly declared `cix_header header;`
(`protocol.h` is not among the sources): no payload, a zero-padded filename. -/
def fresh_header (P : protocol) : cix_header :=
  { command := cix_command.ERROR, nbytes := 0, filename := cleared_filename P }

/-- The header `cix_get` has built when it calls `send_packet` (lines 47-51 of
cix.cpp). -/
def cix_get_header (P : protocol) (filename : Str) : cix_header :=
  let header := fresh_header P
  let header := { header with command := cix_command.GET }
  { header with filename := strncpy filename P.FILENAME_SIZE }

/-- The header `cix_ls` has built when it calls `send_packet` (lines 77-78). -/
def cix_ls_header (P : protocol) : cix_header :=
  let header := fresh_header P
  { header with command := cix_command.LS }

/-- The header of `cix_put` after the filename is copied into it (lines 98-104),
before its command and byte count are set. -/
def cix_put_header (P : protocol) (filename : Str) : cix_header :=
  let header := fresh_header P
  { header with filename := strncpy filename P.FILENAME_SIZE }

/-- The header `cix_rm` has built when it calls `send_packet` (lines 150-155). -/
def cix_rm_header (P : protocol) (filename : Str) : cix_header :=
  let header := fresh_header P
  let header := { header with command := cix_command.RM }
  { header with filename := strncpy filename P.FILENAME_SIZE }

/-- The static text `help` of cix.cpp. -/
def help : String :=
  "\nexit         - Exit the program.  Equivalent to EOF.\nget filename - Copy remote file to local host.\nhelp         - Print help summary.\nls           - List names of files on remote server.\nput filename - Copy local file to remote host.\nrm filename  - Remove file from remote server.\n"

/-- `cix_help` of cix.cpp. -/
def cix_help (w : world) : world :=
  { w with client := { w.client with cout := w.client.cout ++ help.toList } }

/-- `cix_get` of cix.cpp. The local file written holds the received bytes up to
their first terminator, then the newline of `endl`. -/
def cix_get (P : protocol) (w : world) (filename : Str) : Option world :=
  let header := cix_get_header P filename
  let w := w.logged [log_arg.lit "sending header ", log_arg.header header]
  let w := w.send_header header
  match w.recv_header P with
  | none => none
  | some (header, w) =>
    let w := w.logged [log_arg.lit "received header ", log_arg.header header]
    if header.command ≠ cix_command.FILEOUT then
      let w := w.logged [log_arg.lit "get -l: ", log_arg.strerror w.client.errno]
      let header := { header with command := cix_command.NAK }
      let header := { header with nbytes := to_nbytes P w.client.errno }
      some (w.send_header header)
    else
      match w.recv_bytes P header.nbytes with
      | none => none
      | some (bytes, w) =>
        let w := w.logged [log_arg.lit "received ", log_arg.num header.nbytes, log_arg.lit " nbytes"]
        let buffer := bytes ++ [NUL]
        some { w with client :=
          { w.client with fs := fs_write w.client.fs (c_str filename) (c_str buffer ++ [NEWLINE]) } }

/-- `cix_ls` of cix.cpp. -/
def cix_ls (P : protocol) (w : world) : Option world :=
  let header := cix_ls_header P
  let w := w.logged [log_arg.lit "sending header ", log_arg.header header]
  let w := w.send_header header
  match w.recv_header P with
  | none => none
  | some (header, w) =>
    let w := w.logged [log_arg.lit "received header ", log_arg.header header]
    if header.command ≠ cix_command.LSOUT then
      let w := w.logged [log_arg.lit "sent LS, server did not return LSOUT"]
      some (w.logged [log_arg.lit "server returned ", log_arg.header header])
    else
      match w.recv_bytes P header.nbytes with
      | none => none
      | some (bytes, w) =>
        let w := w.logged [log_arg.lit "received ", log_arg.num header.nbytes, log_arg.lit " bytes"]
        let buffer := bytes ++ [NUL]
        some { w with client := { w.client with cout := w.client.cout ++ c_str buffer } }

/-- `cix_put` of cix.cpp. As in `reply_get`, the second `ifs.open` fails on the
open stream and the iterators read the whole file; `none` also when that read
throws `ios_base::failure`, which `main` does not catch: the client ends. -/
def cix_put (P : protocol) (w : world) (filename : Str) : Option world :=
  let header := cix_put_header P filename
  match w.client.fs (c_str filename) with
  | open_result.failed e =>
    let w := w.set_errno e
    let w := w.logged [log_arg.lit "put -l: ", log_arg.strerror w.client.errno]
    let header := { header with command := cix_command.NAK }
    let header := { header with nbytes := to_nbytes P w.client.errno }
    some (w.send_header header)
  | open_result.unreadable => none
  | open_result.opened content =>
    let put_output := buffered content w.client.after_buffer
    let header := { header with command := cix_command.PUT }
    let header := { header with nbytes := to_nbytes P put_output.length }
    let w := w.logged [log_arg.lit "sending header ", log_arg.header header]
    let w := w.send_header header
    let w := w.send_bytes put_output
    match w.recv_header P with
    | none => none
    | some (header, w) =>
      if header.command = cix_command.ACK then
        some (w.logged [log_arg.lit "received header ", log_arg.header header])
      else
        let w := w.logged [log_arg.lit "put -l: ", log_arg.strerror w.client.errno]
        let header := { header with command := cix_command.NAK }
        let header := { header with nbytes := to_nbytes P w.client.errno }
        some (w.send_header header)

/-- `cix_rm` of cix.cpp. -/
def cix_rm (P : protocol) (w : world) (filename : Str) : Option world :=
  let header := cix_rm_header P filename
  let w := w.logged [log_arg.lit "sending header ", log_arg.header header]
  let w := w.send_header header
  match w.recv_header P with
  | none => none
  | some (header, w) =>
    let w := w.logged [log_arg.lit "received header ", log_arg.header header]
    if header.command = cix_command.NAK then
      some (w.logged [log_arg.lit "rm -l: ", log_arg.strerror w.client.errno])
    else
      some w

/-- Where one pass of the command loop of `main` leaves the session. -/
inductive session where
  /-- the loop goes on to the next line -/
  | running (w : world)
  /-- `cix_exit` was thrown -/
  | exited (w : world)
  /-- a `recv_packet` could not be completed, or the client ended on an
  exception that `main` does not catch -/
  | stalled

/-- The loop goes on when the exchange completed. -/
def session.of_exchange : Option world → session
  | some w => session.running w
  | none => session.stalled

/-- One pass of the loop of `main` of cix.cpp on the line `getline` read. -/
def main_iter (P : protocol) (w : world) (line : Str) : session :=
  let filename := parse_filename line
  let line := truncate_line line
  let w := w.logged [log_arg.lit "command ", log_arg.str line]
  let cmd := lookup_command line
  match cmd with
  | cix_command.EXIT => session.exited w
  | cix_command.HELP => session.running (cix_help w)
  | cix_command.GET => session.of_exchange (cix_get P w filename)
  | cix_command.LS => session.of_exchange (cix_ls P w)
  | cix_command.PUT => session.of_exchange (cix_put P w filename)
  | cix_command.RM => session.of_exchange (cix_rm P w filename)
  | _ => session.running (w.logged [log_arg.str line, log_arg.lit ": invalid command"])

/-- The loop of `main` of cix.cpp over the lines of standard input; the end of
input throws `cix_exit`. -/
def main_loop (P : protocol) : List Str → world → session
  | [], w => session.exited w
  | line :: rest, w =>
    match main_iter P w line with
    | session.running w1 => main_loop P rest w1
    | other => other

/-! ## The listener (`main` of cixd.cpp) -/

/-- The error code of a system call interrupted by a signal. -/
def EINTR : Nat := 4

/-- What one call of `listener.accept (client_sock)` gives the listener, with
what follows it on success: the connection accepted, the value `fork` returns,
the `errno` it leaves, and the terminated children (pid, status) that
`reap_zombies` finds; or the `sys_errno` of the `socket_sys_error` thrown. -/
inductive accept_outcome where
  | accepted (sock : Nat) (pid : Int) (errno : Nat) (zombies : List (Nat × Nat))
  | failed (sys_errno : Nat)
  deriving DecidableEq, Repr

/-- How the run of a process that entered `main` of cixd.cpp ends. -/
inductive listener_end where
  /-- `main` returned 0 in the listener -/
  | returned
  /-- the process is a forked child: it served its connection, then returned -/
  | worker_returned
  /-- the listener waits in `accept`: no further outcome is known -/
  | waiting
  deriving DecidableEq, Repr

/-- A run of the listener: its log, the connections it handed to a forked
worker (`fork` returned a pid above 0), and how it ends. -/
structure listener_run where
  log : List log_line
  dispatched : List Nat
  ending : listener_end
  deriving DecidableEq, Repr

/-- The log lines of `reap_zombies`, one per terminated child. -/
def reap_zombies (zombies : List (Nat × Nat)) : List log_line :=
  zombies.map (fun z =>
    [log_arg.lit "child ", log_arg.num z.1, log_arg.lit " exit ", log_arg.num (z.2 >>> 8),
     log_arg.lit " signal ", log_arg.num (z.2 &&& 0x7F),
     log_arg.lit " core ", log_arg.num (z.2 >>> 7 &&& 1)])

/-- The two nested loops of `main` of cixd.cpp from a call of
`listener.accept` on, over the outcomes of the successive calls. Modelled from
the spec: `sockets.h` is not among the sources; a `socket_sys_error` is a
`socket_error`, so the handler at the end of `main` catches what the inner
handler rethrows. -/
def accept_loop (log : List log_line) (dispatched : List Nat) :
    List accept_outcome → listener_run
  | [] => { log := log, dispatched := dispatched, ending := listener_end.waiting }
  | accept_outcome.failed sys_errno :: rest =>
    if sys_errno = EINTR then
      accept_loop (log ++ [[log_arg.lit "listener.accept caught ", log_arg.strerror EINTR]])
        dispatched rest
    else
      { log := log ++ [[log_arg.strerror sys_errno], [log_arg.lit "finishing"]],
        dispatched := dispatched, ending := listener_end.returned }
  | accept_outcome.accepted sock pid errno zombies :: rest =>
    let log := log ++ [[log_arg.lit "accepted ", log_arg.num sock]]
    if pid = 0 then
      { log := log ++ [[log_arg.lit "caught cix_exit"], [log_arg.lit "finishing"]],
        dispatched := dispatched, ending := listener_end.worker_returned }
    else
      let log :=
        if pid < 0 then log ++ [[log_arg.lit "fork failed: ", log_arg.strerror errno]]
        else log ++ [[log_arg.lit "forked cixserver pid ", log_arg.num pid.toNat]]
      let dispatched := if pid < 0 then dispatched else dispatched ++ [sock]
      let log := log ++ reap_zombies zombies
      accept_loop (log ++ [[log_arg.lit " accepting port "]]) dispatched rest

/-- The loop of `main` of cixd.cpp over the outcomes of its calls of
`listener.accept`. -/
def cixd_main (outcomes : List accept_outcome) : listener_run :=
  accept_loop [[log_arg.lit "starting"], [log_arg.lit " accepting port "]] [] outcomes

/-! ## Notions used to state the properties -/

/-- The keyword of an input line as the interface describes it: the text
before the first blank, the whole line when it has none. -/
def keyword (line : Str) : Str := line.takeWhile (fun c => c != SPACE)

/-- Two states of a worker that differ at most in their log. -/
def same_but_log (s t : server) : Prop :=
  s.fs = t.fs ∧ s.ls_cmd = t.ls_cmd ∧ s.errno = t.errno ∧ s.inbox = t.inbox ∧
  s.outbox = t.outbox ∧ s.after_header = t.after_header ∧ s.after_buffer = t.after_buffer ∧
  s.unlink_errno = t.unlink_errno

/-- An element of the stream that `run_server` takes in its default case: a
header whose command is none of `GET`, `LS`, `PUT`, `RM`. -/
def is_ignored : elem → Bool
  | elem.hdr h =>
    decide (h.command ≠ cix_command.GET ∧ h.command ≠ cix_command.LS ∧
      h.command ≠ cix_command.PUT ∧ h.command ≠ cix_command.RM)
  | elem.byte _ => false

/-- A connection in step: what the worker has not read yet are headers it
ignores, and the client has read all the worker sent. This holds on a fresh
connection and is what the passes of the command loop leave while the payloads
fit `nbytes` (`main_iter_keeps_in_step`). -/
def in_step (w : world) : Prop :=
  w.server.inbox.all is_ignored = true ∧ w.client.received = w.server.outbox.length

/-- The headers among the elements of a stream. -/
def headers : List elem → List cix_header
  | [] => []
  | elem.hdr h :: rest => h :: headers rest
  | elem.byte _ :: rest => headers rest

/-! ## Concrete states for the examples -/

/-- Modelled from the spec: the sizes of the reference implementation, a
filename capacity of 256 bytes and a 32-bit byte count. -/
def reference_protocol : protocol := { FILENAME_SIZE := 256, NBYTES_BITS := 32 }

/-- A directory without files. -/
def no_files : filesystem := fun _ => open_result.failed ENOENT

/-- A directory with the single file `path`. -/
def one_file (path content : Str) : filesystem := fs_write no_files path content

/-- A worker that has just been connected, in the directory `fs`. -/
def idle_server (fs : filesystem) : server :=
  { fs := fs, ls_cmd := fun _ => popen_result.pipe [] 0, unlink_errno := fun _ => none,
    errno := 0, inbox := [], outbox := [], log := [], after_header := [],
    after_buffer := [] }

/-- The error code of an operation the permissions do not allow. -/
def EACCES : Nat := 13

/-- A worker that has just been connected, in the directory `fs`, which it
cannot write: every `unlink` fails. -/
def read_only_server (fs : filesystem) : server :=
  { idle_server fs with unlink_errno := fun _ => some EACCES }

/-- A client that has just connected, in the local directory `fs`. -/
def idle_client (fs : filesystem) : client :=
  { fs := fs, errno := 0, cout := [], log := [], after_buffer := [], sent := [],
    received := 0 }

/-- A fresh connection between a client in `local_fs` and a worker in
`remote_fs`. -/
def fresh_world (local_fs remote_fs : filesystem) : world :=
  { client := idle_client local_fs, server := idle_server remote_fs }

/-- The connection that `get g` leaves when the server has no file `g`: the
client has the file `f`, and the `NAK` header it sent back is still unread by
the worker. -/
def world_after_refused_get : world :=
  match cix_get reference_protocol (fresh_world (one_file "f".toList "a".toList) no_files)
      "g".toList with
  | some w => w
  | none => fresh_world (one_file "f".toList "a".toList) no_files

/-! ## Lemmas on the line parser -/

theorem get_line (f : Str) :
    parse_filename ('g' :: 'e' :: 't' :: SPACE :: f) = f ∧
    truncate_line ('g' :: 'e' :: 't' :: SPACE :: f) = ['g', 'e', 't'] := by
  constructor
  · simp [parse_filename, find_first_of, substr_from, SPACE, npos]
  · simp [truncate_line, char_at, substr]

theorem put_line (f : Str) :
    parse_filename ('p' :: 'u' :: 't' :: SPACE :: f) = f ∧
    truncate_line ('p' :: 'u' :: 't' :: SPACE :: f) = ['p', 'u', 't'] := by
  constructor
  · simp [parse_filename, find_first_of, substr_from, SPACE, npos]
  · simp [truncate_line, char_at, substr]

theorem rm_line (f : Str) :
    parse_filename ('r' :: 'm' :: SPACE :: f) = f ∧
    truncate_line ('r' :: 'm' :: SPACE :: f) = ['r', 'm'] := by
  constructor
  · simp [parse_filename, find_first_of, substr_from, SPACE, npos]
  · simp [truncate_line, char_at, substr]

theorem lookup_command_eq (t : Str) :
    lookup_command t =
      if t = ['e', 'x', 'i', 't'] then cix_command.EXIT
      else if t = ['g', 'e', 't'] then cix_command.GET
      else if t = ['h', 'e', 'l', 'p'] then cix_command.HELP
      else if t = ['l', 's'] then cix_command.LS
      else if t = ['p', 'u', 't'] then cix_command.PUT
      else if t = ['r', 'm'] then cix_command.RM
      else if t = ['a', 'c', 'k'] then cix_command.ACK
      else cix_command.ERROR := by
  have hk : command_map =
      [ (['e', 'x', 'i', 't'], cix_command.EXIT), (['g', 'e', 't'], cix_command.GET),
        (['h', 'e', 'l', 'p'], cix_command.HELP), (['l', 's'], cix_command.LS),
        (['p', 'u', 't'], cix_command.PUT), (['r', 'm'], cix_command.RM),
        (['a', 'c', 'k'], cix_command.ACK) ] := rfl
  unfold lookup_command
  rw [hk]
  simp only [List.lookup]
  split_ifs with h1 h2 h3 h4 h5 h6 h7
  · subst h1; rfl
  · subst h2; rfl
  · subst h3; rfl
  · subst h4; rfl
  · subst h5; rfl
  · subst h6; rfl
  · subst h7; rfl
  · rw [beq_eq_false_iff_ne.mpr h1, beq_eq_false_iff_ne.mpr h2, beq_eq_false_iff_ne.mpr h3,
      beq_eq_false_iff_ne.mpr h4, beq_eq_false_iff_ne.mpr h5, beq_eq_false_iff_ne.mpr h6,
      beq_eq_false_iff_ne.mpr h7]

theorem truncate_line_cases (line : Str) :
    (['r', 'm'] <+: line ∧ truncate_line line = ['r', 'm']) ∨
    (¬ ['r', 'm'] <+: line ∧ char_at line 0 = 'e' ∧ truncate_line line = line.take 4) ∨
    (¬ ['r', 'm'] <+: line ∧ char_at line 0 ≠ 'e' ∧ char_at line 0 ≠ 's' ∧
      truncate_line line = line.take 3) ∨
    (char_at line 0 = 's' ∧ truncate_line line = line) := by
  rcases line with _ | ⟨a, _ | ⟨b, rest⟩⟩
  · simp [truncate_line, char_at, substr, NUL]
  · by_cases ha : a = 'e' <;> by_cases hs : a = 's' <;> by_cases hr : a = 'r' <;>
      simp_all [truncate_line, char_at, substr, NUL]
  · by_cases ha : a = 'e' <;> by_cases hs : a = 's' <;> by_cases hr : a = 'r' <;>
      by_cases hm : b = 'm' <;>
      simp_all [truncate_line, char_at, substr, NUL, @eq_comm Char 'r', @eq_comm Char 'm']


theorem first_char_of_take {line k : Str} {n : Nat} (hn : 0 < n) (h : line.take n = k) :
    char_at line 0 = char_at k 0 := by
  subst h
  rcases line with _ | ⟨a, rest⟩
  · simp
  · rcases n with _ | n
    · omega
    · simp [char_at]

theorem eq_of_take_short {line k : Str} {n : Nat} (h : line.take n = k) (hl : k.length < n) :
    line = k := by
  subst h
  rw [List.length_take] at hl
  exact (List.take_of_length_le (by omega)).symm

theorem invalid_lookup (line : Str)
    (hexit : ¬ ['e', 'x', 'i', 't'] <+: line) (hget : ¬ ['g', 'e', 't'] <+: line)
    (hput : ¬ ['p', 'u', 't'] <+: line) (hrm : ¬ ['r', 'm'] <+: line)
    (hls : line ≠ ['l', 's']) :
    lookup_command (truncate_line line) = cix_command.ERROR ∨
    lookup_command (truncate_line line) = cix_command.ACK := by
  rw [lookup_command_eq]
  have h1 : truncate_line line ≠ ['e', 'x', 'i', 't'] := by
    rcases truncate_line_cases line with h | h | h | h
    · exact absurd h.1 hrm
    · rw [h.2.2]; intro hc; exact hexit (hc ▸ List.take_prefix 4 line)
    · rw [h.2.2.2]; intro hc
      have := first_char_of_take (by omega) hc
      exact h.2.1 (by rw [this]; rfl)
    · rw [h.2]; intro hc; rw [hc] at h; simp [char_at] at h
  have h2 : truncate_line line ≠ ['g', 'e', 't'] := by
    rcases truncate_line_cases line with h | h | h | h
    · exact absurd h.1 hrm
    · rw [h.2.2]; intro hc
      have := first_char_of_take (by omega) hc
      rw [h.2.1] at this; simp [char_at] at this
    · rw [h.2.2.2]; intro hc; exact hget (hc ▸ List.take_prefix 3 line)
    · rw [h.2]; intro hc; rw [hc] at h; simp [char_at] at h
  have h3 : truncate_line line ≠ ['h', 'e', 'l', 'p'] := by
    rcases truncate_line_cases line with h | h | h | h
    · exact absurd h.1 hrm
    · rw [h.2.2]; intro hc
      have := first_char_of_take (by omega) hc
      rw [h.2.1] at this; simp [char_at] at this
    · rw [h.2.2.2]; intro hc
      have := congrArg List.length hc
      rw [List.length_take] at this
      simp only [List.length_cons, List.length_nil] at this
      omega
    · rw [h.2]; intro hc; rw [hc] at h; simp [char_at] at h
  have h4 : truncate_line line ≠ ['l', 's'] := by
    rcases truncate_line_cases line with h | h | h | h
    · exact absurd h.1 hrm
    · rw [h.2.2]; intro hc
      have := first_char_of_take (by omega) hc
      rw [h.2.1] at this; simp [char_at] at this
    · rw [h.2.2.2]; intro hc; exact hls (eq_of_take_short hc (by simp))
    · rw [h.2]; intro hc; rw [hc] at h; simp [char_at] at h
  have h5 : truncate_line line ≠ ['p', 'u', 't'] := by
    rcases truncate_line_cases line with h | h | h | h
    · exact absurd h.1 hrm
    · rw [h.2.2]; intro hc
      have := first_char_of_take (by omega) hc
      rw [h.2.1] at this; simp [char_at] at this
    · rw [h.2.2.2]; intro hc; exact hput (hc ▸ List.take_prefix 3 line)
    · rw [h.2]; intro hc; rw [hc] at h; simp [char_at] at h
  have h6 : truncate_line line ≠ ['r', 'm'] := by
    rcases truncate_line_cases line with h | h | h | h
    · exact absurd h.1 hrm
    · rw [h.2.2]; intro hc
      have := first_char_of_take (by omega) hc
      rw [h.2.1] at this; simp [char_at] at this
    · rw [h.2.2.2]; intro hc
      exact hrm (by rw [eq_of_take_short hc (by simp)])
    · rw [h.2]; intro hc; rw [hc] at h; simp [char_at] at h
  rw [if_neg h1, if_neg h2, if_neg h3, if_neg h4, if_neg h5, if_neg h6]
  split_ifs
  · exact Or.inr rfl
  · exact Or.inl rfl

/-! ## The claims on the line parser -/

/-- C4: for every string `f`, the pass of the command loop on the line
`"get " ++ f` finds the command `GET` and calls `cix_get` with the filename `f`
itself; likewise `"put " ++ f` calls `cix_put` with `f` and `"rm " ++ f` calls
`cix_rm` with `f`. -/
theorem two_word_lines_dispatch (P : protocol) (w : world) (f : Str) :
    (parse_filename ("get ".toList ++ f) = f ∧
      lookup_command (truncate_line ("get ".toList ++ f)) = cix_command.GET ∧
      main_iter P w ("get ".toList ++ f) =
        session.of_exchange
          (cix_get P (w.logged [log_arg.lit "command ", log_arg.str "get".toList]) f)) ∧
    (parse_filename ("put ".toList ++ f) = f ∧
      lookup_command (truncate_line ("put ".toList ++ f)) = cix_command.PUT ∧
      main_iter P w ("put ".toList ++ f) =
        session.of_exchange
          (cix_put P (w.logged [log_arg.lit "command ", log_arg.str "put".toList]) f)) ∧
    (parse_filename ("rm ".toList ++ f) = f ∧
      lookup_command (truncate_line ("rm ".toList ++ f)) = cix_command.RM ∧
      main_iter P w ("rm ".toList ++ f) =
        session.of_exchange
          (cix_rm P (w.logged [log_arg.lit "command ", log_arg.str "rm".toList]) f)) := by
  have hg : "get ".toList ++ f = 'g' :: 'e' :: 't' :: SPACE :: f := rfl
  have hp : "put ".toList ++ f = 'p' :: 'u' :: 't' :: SPACE :: f := rfl
  have hr : "rm ".toList ++ f = 'r' :: 'm' :: SPACE :: f := rfl
  have kg : lookup_command ['g', 'e', 't'] = cix_command.GET := by decide
  have kp : lookup_command ['p', 'u', 't'] = cix_command.PUT := by decide
  have kr : lookup_command ['r', 'm'] = cix_command.RM := by decide
  have tg : "get".toList = ['g', 'e', 't'] := rfl
  have tp : "put".toList = ['p', 'u', 't'] := rfl
  have tr : "rm".toList = ['r', 'm'] := rfl
  rw [hg, hp, hr, tg, tp, tr]
  refine ⟨⟨(get_line f).1, ?_, ?_⟩, ⟨(put_line f).1, ?_, ?_⟩, ⟨(rm_line f).1, ?_, ?_⟩⟩
  · rw [(get_line f).2, kg]
  · simp only [main_iter, (get_line f).1, (get_line f).2, kg]
  · rw [(put_line f).2, kp]
  · simp only [main_iter, (put_line f).1, (put_line f).2, kp]
  · rw [(rm_line f).2, kr]
  · simp only [main_iter, (rm_line f).1, (rm_line f).2, kr]

/-- C3 (the code at the failing input): the pass of the command loop on the
line `help` cuts it to `hel`, finds no command, writes nothing to `cout` and
logs `hel: invalid command`; `cix_help` is not called. The lines `exit` and
`ls` are found as `EXIT` and `LS`. -/
theorem help_line_is_invalid (P : protocol) (w : world) :
    truncate_line "help".toList = "hel".toList ∧
    lookup_command (truncate_line "help".toList) = cix_command.ERROR ∧
    main_iter P w "help".toList =
      session.running
        ((w.logged [log_arg.lit "command ", log_arg.str "hel".toList]).logged
          [log_arg.str "hel".toList, log_arg.lit ": invalid command"]) ∧
    lookup_command (truncate_line "exit".toList) = cix_command.EXIT ∧
    lookup_command (truncate_line "ls".toList) = cix_command.LS := by
  have ht : truncate_line "help".toList = "hel".toList := by decide
  have hl : lookup_command "hel".toList = cix_command.ERROR := by decide
  refine ⟨ht, by rw [ht, hl], ?_, by decide, by decide⟩
  simp only [main_iter, ht, hl]

/-- Where the command loop does take the invalid-command branch: for every
input line whose keyword is not one of exit, get, help, ls, put, rm and which
does not begin with `exit`, `get`, `put` or `rm`, the session goes on, two lines
are logged (the command and `: invalid command`), nothing is sent and the server
is left as it was. -/
theorem other_lines_are_invalid (P : protocol) (w : world) (line : Str)
    (hkey : keyword line ∉ ["exit".toList, "get".toList, "help".toList, "ls".toList,
      "put".toList, "rm".toList])
    (hexit : ¬ "exit".toList <+: line) (hget : ¬ "get".toList <+: line)
    (hput : ¬ "put".toList <+: line) (hrm : ¬ "rm".toList <+: line) :
    ∃ w1, main_iter P w line = session.running w1 ∧
      w1 = (w.logged [log_arg.lit "command ", log_arg.str (truncate_line line)]).logged
        [log_arg.str (truncate_line line), log_arg.lit ": invalid command"] ∧
      w1.client.sent = w.client.sent ∧ w1.server = w.server ∧
      w1.client.cout = w.client.cout ∧ w1.client.fs = w.client.fs := by
  have hls : line ≠ ['l', 's'] := by
    intro h
    apply hkey
    rw [h]
    decide
  refine ⟨_, ?_, rfl, rfl, rfl, rfl, rfl⟩
  rcases invalid_lookup line hexit hget hput hrm hls with h | h <;>
    simp only [main_iter, h]

/-- C2 (the code at the failing inputs): the line `getx` has no blank, so its
keyword is the whole line, which is none of the six commands; the pass of the
command loop cuts it to `get` (the cut of lines 192-197 that turns `help` into
`hel`), calls `cix_get` for the file `getx` and sends a `GET` header to the
server. Likewise the keyword of the line `rmdir d` is `rmdir`, and the pass
cuts the line to `rm` and calls `cix_rm` for the file `d`. -/
theorem getx_line_sends_get :
    keyword "getx".toList = "getx".toList ∧
    keyword "getx".toList ∉ ["exit".toList, "get".toList, "help".toList, "ls".toList,
      "put".toList, "rm".toList] ∧
    (∃ w1, main_iter reference_protocol (fresh_world no_files no_files) "getx".toList =
        session.running w1 ∧
      w1.client.sent.head? =
        some (elem.hdr (cix_get_header reference_protocol "getx".toList))) ∧
    keyword "rmdir d".toList = "rmdir".toList ∧
    keyword "rmdir d".toList ∉ ["exit".toList, "get".toList, "help".toList, "ls".toList,
      "put".toList, "rm".toList] ∧
    main_iter reference_protocol (fresh_world no_files (one_file "d".toList "x".toList))
        "rmdir d".toList =
      session.of_exchange (cix_rm reference_protocol
        ((fresh_world no_files (one_file "d".toList "x".toList)).logged
          [log_arg.lit "command ", log_arg.str "rm".toList]) "d".toList) ∧
    ∃ w2, main_iter reference_protocol (fresh_world no_files (one_file "d".toList "x".toList))
        "rmdir d".toList = session.running w2 ∧
      w2.client.sent = [elem.hdr (cix_rm_header reference_protocol "d".toList)] ∧
      w2.server.fs "d".toList = open_result.failed ENOENT :=
  ⟨by decide, by decide, ⟨_, rfl, rfl⟩, by decide, by decide, rfl, _, rfl, rfl, rfl⟩

/-! ## The filename field -/

theorem c_str_of_no_nul (f : Str) (h : NUL ∉ f) : c_str f = f := by
  unfold c_str
  rw [List.takeWhile_eq_self_iff]
  intro c hc
  have : c ≠ NUL := fun e => h (e ▸ hc)
  simpa using this

theorem strncpy_of_long (f : Str) (n : Nat) (hnul : NUL ∉ f) (hlong : n ≤ f.length) :
    strncpy f n = f.take n := by
  unfold strncpy
  rw [c_str_of_no_nul f hnul, Nat.sub_eq_zero_of_le hlong]
  simp

/-- C5 (the code at the failing inputs): for every filename without a
terminator byte that is longer than the capacity N of `header.filename`, the
field `cix_get`, `cix_put` and `cix_rm` send holds the first N characters of the
name and no terminator byte; it is not the first N-1 characters followed by a
terminator. -/
theorem long_filename_is_not_terminated (P : protocol) (f : Str)
    (hnul : NUL ∉ f) (hlong : P.FILENAME_SIZE < f.length) :
    (cix_get_header P f).filename = f.take P.FILENAME_SIZE ∧
    (cix_put_header P f).filename = f.take P.FILENAME_SIZE ∧
    (cix_rm_header P f).filename = f.take P.FILENAME_SIZE ∧
    NUL ∉ f.take P.FILENAME_SIZE ∧
    f.take P.FILENAME_SIZE ≠ f.take (P.FILENAME_SIZE - 1) ++ [NUL] := by
  have h := strncpy_of_long f P.FILENAME_SIZE hnul (Nat.le_of_lt hlong)
  have hn : NUL ∉ f.take P.FILENAME_SIZE := fun hm => hnul (List.mem_of_mem_take hm)
  refine ⟨?_, ?_, ?_, hn, ?_⟩
  · simp only [cix_get_header, h]
  · simp only [cix_put_header, h]
  · simp only [cix_rm_header, h]
  · intro he
    apply hn
    rw [he]
    simp

/-- C5 (the code at the failing input), for the capacity 256 and a filename of
266 characters `a`. -/
theorem long_filename_is_not_terminated_witness :
    (cix_get_header reference_protocol (List.replicate 266 'a')).filename =
      (List.replicate 266 'a').take reference_protocol.FILENAME_SIZE ∧
    (cix_put_header reference_protocol (List.replicate 266 'a')).filename =
      (List.replicate 266 'a').take reference_protocol.FILENAME_SIZE ∧
    (cix_rm_header reference_protocol (List.replicate 266 'a')).filename =
      (List.replicate 266 'a').take reference_protocol.FILENAME_SIZE ∧
    NUL ∉ (List.replicate 266 'a').take reference_protocol.FILENAME_SIZE ∧
    (List.replicate 266 'a').take reference_protocol.FILENAME_SIZE ≠
      (List.replicate 266 'a').take (reference_protocol.FILENAME_SIZE - 1) ++ [NUL] :=
  long_filename_is_not_terminated reference_protocol (List.replicate 266 'a')
    (fun h => absurd (List.eq_of_mem_replicate h) (by decide))
    (by rw [List.length_replicate]; decide)

/-! ## The handlers of the server -/

theorem server_path_congr (s s2 : server) (h h2 : cix_header)
    (hname : h2.filename = h.filename) (hmem : s2.after_header = s.after_header) :
    s2.path h2 = s.path h := by
  simp only [server.path, hname, hmem]

/-- What `reply_rm` promises when `unlink` does remove the path: if `reply_rm`
answers `ACK`, then `reply_get` for the same filename, run in any state of a
worker whose directory is the one `reply_rm` left, answers with the single
header `NAK` and no payload. -/
theorem unlinked_file_is_gone (P : protocol) (s s2 : server) (h h2 : cix_header)
    (hun : s.unlink_errno (s.path h) = none)
    (hack : ∃ a, (reply_rm P s h).outbox = s.outbox ++ [elem.hdr a] ∧
      a.command = cix_command.ACK)
    (hname : h2.filename = h.filename)
    (hfs : s2.fs = (reply_rm P s h).fs) (hmem : s2.after_header = s.after_header) :
    ∃ s3 n, reply_get P s2 h2 = some s3 ∧ s3.outbox = s2.outbox ++ [elem.hdr n] ∧
      n.command = cix_command.NAK := by
  have hp : s2.path { h2 with command := cix_command.GET } = s.path h :=
    server_path_congr s s2 h _ hname hmem
  obtain ⟨a, hout, hcmd⟩ := hack
  unfold reply_rm at hout hfs
  have hgone : s2.fs (s.path h) = open_result.failed ENOENT := by
    cases hopen : s.fs (s.path h) with
    | failed e =>
      rw [hopen] at hout
      simp only [server.send_header, server.logged] at hout
      have := List.append_cancel_left hout
      simp only [List.cons.injEq, elem.hdr.injEq, and_true] at this
      rw [← this] at hcmd
      simp at hcmd
    | opened content =>
      rw [hopen] at hfs
      simp only [server.send_header, server.logged, server.unlink, hun] at hfs
      rw [hfs]; simp [fs_unlink]
    | unreadable =>
      rw [hopen] at hfs
      simp only [server.send_header, server.logged, server.unlink, hun] at hfs
      rw [hfs]; simp [fs_unlink]
  unfold reply_get
  simp only [hp, hgone]
  exact ⟨_, _, rfl, rfl, rfl⟩

/-- What `reply_rm` does with a path that opens when `unlink` fails: `errno` is
set and the `ACK` header is sent all the same. -/
theorem reply_rm_of_failed_unlink (P : protocol) (s : server) (h : cix_header) (e : Nat)
    (hopen : ∀ e0, s.fs (s.path h) ≠ open_result.failed e0)
    (hun : s.unlink_errno (s.path h) = some e) :
    reply_rm P s h =
      ((({ s with errno := e } : server).logged [log_arg.lit "sending header ",
        log_arg.header ⟨cix_command.ACK, h.nbytes, cleared_filename P⟩]).send_header
        ⟨cix_command.ACK, h.nbytes, cleared_filename P⟩) := by
  unfold reply_rm
  cases hc : s.fs (s.path h) with
  | failed e0 => exact absurd hc (hopen e0)
  | opened content => simp only [server.unlink, hun]
  | unreadable => simp only [server.unlink, hun]

/-- C7 (the code at the failing inputs): for every state of the server and every
header naming a path that opens and that `unlink` does not remove (a file in a
directory the worker cannot write, or a directory such as `.`), `reply_rm`
answers with the single header `ACK` and leaves every file as it was; the
`reply_get` of the same name that follows does not answer `NAK`: it sends
`FILEOUT` and the file, or it throws on the read and sends nothing. -/
theorem ack_without_unlink (P : protocol) (s : server) (h : cix_header) (e : Nat)
    (hopen : (∃ content, s.fs (s.path h) = open_result.opened content) ∨
      s.fs (s.path h) = open_result.unreadable)
    (hun : s.unlink_errno (s.path h) = some e) :
    (reply_rm P s h).outbox =
      s.outbox ++ [elem.hdr ⟨cix_command.ACK, h.nbytes, cleared_filename P⟩] ∧
    (reply_rm P s h).fs = s.fs ∧
    ((s.fs (s.path h) = open_result.unreadable ∧ reply_get P (reply_rm P s h) h = none) ∨
      ∃ content s2, s.fs (s.path h) = open_result.opened content ∧
        reply_get P (reply_rm P s h) h = some s2 ∧
        s2.outbox = (reply_rm P s h).outbox ++
          elem.hdr ⟨cix_command.FILEOUT, to_nbytes P (buffered content s.after_buffer).length,
            cleared_filename P⟩ ::
          payload (buffered content s.after_buffer)) := by
  have hnf : ∀ e0, s.fs (s.path h) ≠ open_result.failed e0 := by
    intro e0 hf
    rcases hopen with ⟨content, hc⟩ | hc <;> rw [hc] at hf <;> cases hf
  have hrm := reply_rm_of_failed_unlink P s h e hnf hun
  have hfs : (reply_rm P s h).fs = s.fs := by rw [hrm]; rfl
  have hah : (reply_rm P s h).after_header = s.after_header := by rw [hrm]; rfl
  have hab : (reply_rm P s h).after_buffer = s.after_buffer := by rw [hrm]; rfl
  have hp : (reply_rm P s h).path { h with command := cix_command.GET } = s.path h :=
    server_path_congr s _ h _ rfl hah
  refine ⟨by rw [hrm]; rfl, hfs, ?_⟩
  rcases hopen with ⟨content, hc⟩ | hc
  · obtain ⟨s2, hs2, hout⟩ : ∃ s2, reply_get P (reply_rm P s h) h = some s2 ∧
        s2.outbox = (reply_rm P s h).outbox ++
          elem.hdr ⟨cix_command.FILEOUT, to_nbytes P (buffered content s.after_buffer).length,
            cleared_filename P⟩ ::
          payload (buffered content s.after_buffer) := by
      unfold reply_get
      simp only [hp, hfs, hc]
      exact ⟨_, rfl, by simp [server.logged, server.send_header, server.send_bytes, hab]⟩
    exact Or.inr ⟨content, s2, hc, hs2, hout⟩
  · refine Or.inl ⟨hc, ?_⟩
    unfold reply_get
    simp only [hp, hfs, hc]

/-- C7 (the code at the failing input): the worker cannot write its directory,
which holds the file `f`; `rm f` is answered `ACK`, the file stays, and the
`get f` that follows is answered `FILEOUT` with the file. -/
theorem ack_without_unlink_witness :
    (reply_rm reference_protocol (read_only_server (one_file "f".toList "x".toList))
        (cix_rm_header reference_protocol "f".toList)).outbox =
      (read_only_server (one_file "f".toList "x".toList)).outbox ++
        [elem.hdr ⟨cix_command.ACK, (cix_rm_header reference_protocol "f".toList).nbytes,
          cleared_filename reference_protocol⟩] ∧
    (reply_rm reference_protocol (read_only_server (one_file "f".toList "x".toList))
        (cix_rm_header reference_protocol "f".toList)).fs =
      (read_only_server (one_file "f".toList "x".toList)).fs ∧
    (((read_only_server (one_file "f".toList "x".toList)).fs
          ((read_only_server (one_file "f".toList "x".toList)).path
            (cix_rm_header reference_protocol "f".toList)) = open_result.unreadable ∧
        reply_get reference_protocol
          (reply_rm reference_protocol (read_only_server (one_file "f".toList "x".toList))
            (cix_rm_header reference_protocol "f".toList))
          (cix_rm_header reference_protocol "f".toList) = none) ∨
      ∃ content s2,
        (read_only_server (one_file "f".toList "x".toList)).fs
          ((read_only_server (one_file "f".toList "x".toList)).path
            (cix_rm_header reference_protocol "f".toList)) = open_result.opened content ∧
        reply_get reference_protocol
          (reply_rm reference_protocol (read_only_server (one_file "f".toList "x".toList))
            (cix_rm_header reference_protocol "f".toList))
          (cix_rm_header reference_protocol "f".toList) = some s2 ∧
        s2.outbox =
          (reply_rm reference_protocol (read_only_server (one_file "f".toList "x".toList))
            (cix_rm_header reference_protocol "f".toList)).outbox ++
          elem.hdr ⟨cix_command.FILEOUT,
            to_nbytes reference_protocol (buffered content
              (read_only_server (one_file "f".toList "x".toList)).after_buffer).length,
            cleared_filename reference_protocol⟩ ::
          payload (buffered content
            (read_only_server (one_file "f".toList "x".toList)).after_buffer)) :=
  ack_without_unlink reference_protocol (read_only_server (one_file "f".toList "x".toList))
    (cix_rm_header reference_protocol "f".toList) EACCES (Or.inl ⟨_, rfl⟩) rfl

/-! ## The log does not steer the worker -/

theorem same_but_log_logged (s t : server) (l1 l2 : log_line) (h : same_but_log s t) :
    same_but_log (s.logged l1) (t.logged l2) := h

theorem reply_get_same (P : protocol) (s t : server) (h : cix_header)
    (hst : same_but_log s t) :
    (reply_get P s h = none ∧ reply_get P t h = none) ∨
    ∃ s1 t1, reply_get P s h = some s1 ∧ reply_get P t h = some t1 ∧ same_but_log s1 t1 := by
  obtain ⟨h1, h2, h3, h4, h5, h6, h7, h8⟩ := hst
  unfold reply_get
  simp only [server.path, h1, h6, h7]
  cases t.fs (read_c_string h.filename t.after_header) with
  | failed e =>
    exact Or.inr ⟨_, _, rfl, rfl, by
      simp [same_but_log, server.logged, server.send_header, *]⟩
  | opened content =>
    exact Or.inr ⟨_, _, rfl, rfl, by
      simp [same_but_log, server.logged, server.send_header, server.send_bytes, *]⟩
  | unreadable => exact Or.inl ⟨rfl, rfl⟩

theorem reply_ls_same (P : protocol) (s t : server) (h : cix_header)
    (hst : same_but_log s t) : same_but_log (reply_ls P s h) (reply_ls P t h) := by
  obtain ⟨h1, h2, h3, h4, h5, h6, h7, h8⟩ := hst
  unfold reply_ls
  simp only [h1, h2]
  cases t.ls_cmd t.fs with
  | failed e =>
    simp [same_but_log, server.logged, server.send_header, *]
  | pipe output status =>
    by_cases hs : status < 0 <;>
      simp [same_but_log, server.logged, server.send_header, server.send_bytes, hs, *]

theorem reply_rm_same (P : protocol) (s t : server) (h : cix_header)
    (hst : same_but_log s t) : same_but_log (reply_rm P s h) (reply_rm P t h) := by
  obtain ⟨h1, h2, h3, h4, h5, h6, h7, h8⟩ := hst
  unfold reply_rm
  simp only [server.path, h1, h6]
  cases t.fs (read_c_string h.filename t.after_header) <;>
    simp only [server.unlink, h8] <;>
    cases t.unlink_errno (read_c_string h.filename t.after_header) <;>
    simp [same_but_log, server.logged, server.send_header, *]

theorem reply_put_same (P : protocol) (s t : server) (h : cix_header)
    (hst : same_but_log s t) :
    (reply_put P s h = none ∧ reply_put P t h = none) ∨
    ∃ s1 t1, reply_put P s h = some s1 ∧ reply_put P t h = some t1 ∧ same_but_log s1 t1 := by
  obtain ⟨h1, h2, h3, h4, h5, h6, h7, h8⟩ := hst
  unfold reply_put
  by_cases hc : h.command ≠ cix_command.PUT
  · right
    rw [if_pos hc, if_pos hc]
    exact ⟨_, _, rfl, rfl, by
      simp [same_but_log, reply_put_ack, server.logged, server.send_header, *]⟩
  · rw [if_neg hc, if_neg hc, h4]
    cases recv_bytes h.nbytes t.inbox with
    | none => exact Or.inl ⟨rfl, rfl⟩
    | some r =>
      right
      exact ⟨_, _, rfl, rfl, by
        simp [same_but_log, reply_put_ack, server.logged, server.send_header, server.path, *]⟩

theorem server_iter_same (P : protocol) (s t : server) (hst : same_but_log s t) :
    (server_iter P s = none ∧ server_iter P t = none) ∨
    ∃ s1 t1, server_iter P s = some s1 ∧ server_iter P t = some t1 ∧ same_but_log s1 t1 := by
  have hin := hst.2.2.2.1
  unfold server_iter
  rw [hin]
  cases recv_header t.inbox with
  | none => exact Or.inl ⟨rfl, rfl⟩
  | some r =>
    obtain ⟨hd, left⟩ := r
    have hst2 : same_but_log
        ({ s with inbox := left }.logged [log_arg.lit "received header ", log_arg.header hd])
        ({ t with inbox := left }.logged [log_arg.lit "received header ", log_arg.header hd]) := by
      obtain ⟨h1, h2, h3, h4, h5, h6, h7, h8⟩ := hst
      exact ⟨h1, h2, h3, rfl, h5, h6, h7, h8⟩
    simp only []
    cases hcmd : hd.command
    case GET => exact reply_get_same P _ _ hd hst2
    case LS => exact Or.inr ⟨_, _, rfl, rfl, reply_ls_same P _ _ hd hst2⟩
    case PUT => exact reply_put_same P _ _ hd hst2
    case RM => exact Or.inr ⟨_, _, rfl, rfl, reply_rm_same P _ _ hd hst2⟩
    case ERROR => exact Or.inr ⟨_, _, rfl, rfl, same_but_log_logged _ _ _ _ hst2⟩
    case EXIT => exact Or.inr ⟨_, _, rfl, rfl, same_but_log_logged _ _ _ _ hst2⟩
    case HELP => exact Or.inr ⟨_, _, rfl, rfl, same_but_log_logged _ _ _ _ hst2⟩
    case ACK => exact Or.inr ⟨_, _, rfl, rfl, same_but_log_logged _ _ _ _ hst2⟩
    case NAK => exact Or.inr ⟨_, _, rfl, rfl, same_but_log_logged _ _ _ _ hst2⟩
    case FILEOUT => exact Or.inr ⟨_, _, rfl, rfl, same_but_log_logged _ _ _ _ hst2⟩
    case LSOUT => exact Or.inr ⟨_, _, rfl, rfl, same_but_log_logged _ _ _ _ hst2⟩
    case unknown raw => exact Or.inr ⟨_, _, rfl, rfl, same_but_log_logged _ _ _ _ hst2⟩

theorem run_server_same (P : protocol) (fuel : Nat) :
    ∀ s t : server, same_but_log s t →
      same_but_log (run_server P fuel s) (run_server P fuel t) := by
  induction fuel with
  | zero => intro s t hst; exact hst
  | succ n ih =>
    intro s t hst
    rcases server_iter_same P s t hst with ⟨hs, ht⟩ | ⟨s1, t1, hs, ht, h1⟩
    · simp only [run_server, hs, ht]; exact hst
    · simp only [run_server, hs, ht]; exact ih s1 t1 h1

/-- The pass of `run_server` on a header whose command is none of `GET`, `LS`,
`PUT`, `RM`: the header is taken off the input and one line is logged. -/
theorem server_iter_unknown (P : protocol) (s : server) (h : cix_header) (rest : List elem)
    (hin : s.inbox = elem.hdr h :: rest)
    (hget : h.command ≠ cix_command.GET) (hls : h.command ≠ cix_command.LS)
    (hput : h.command ≠ cix_command.PUT) (hrm : h.command ≠ cix_command.RM) :
    server_iter P s = some (({ s with inbox := rest }.logged
        [log_arg.lit "received header ", log_arg.header h]).logged
        [log_arg.lit "invalid header from client:", log_arg.header h]) := by
  unfold server_iter
  rw [hin]
  simp only [recv_header]

/-- C8: for every header whose command is none of `GET`, `LS`, `PUT`, `RM`
(`ACK`, `NAK`, `EXIT`, `HELP`, `ERROR`, `FILEOUT`, `LSOUT` and every value out of range),
the pass of the loop of `run_server` that receives it completes, sends nothing,
leaves every file and `errno` as they were and leaves the rest of the input
pending; and the loop run on the input with that header in front ends, after one
more pass, in the state it reaches on the input without it, log apart. -/
theorem unknown_command_is_ignored (P : protocol) (s : server) (h : cix_header)
    (rest : List elem) (fuel : Nat)
    (hin : s.inbox = elem.hdr h :: rest)
    (hget : h.command ≠ cix_command.GET) (hls : h.command ≠ cix_command.LS)
    (hput : h.command ≠ cix_command.PUT) (hrm : h.command ≠ cix_command.RM) :
    (∃ s1, server_iter P s = some s1 ∧ s1.outbox = s.outbox ∧ s1.fs = s.fs ∧
      s1.errno = s.errno ∧ s1.inbox = rest ∧
      s1.log = s.log ++ [[log_arg.lit "received header ", log_arg.header h],
        [log_arg.lit "invalid header from client:", log_arg.header h]]) ∧
    same_but_log (run_server P (fuel + 1) s) (run_server P fuel { s with inbox := rest }) := by
  have hiter := server_iter_unknown P s h rest hin hget hls hput hrm
  refine ⟨⟨_, hiter, rfl, rfl, rfl, rfl, ?_⟩, ?_⟩
  · simp [server.logged]
  · simp only [run_server, hiter]
    exact run_server_same P fuel _ _ ⟨rfl, rfl, rfl, rfl, rfl, rfl, rfl, rfl⟩

/-- C8, for a header with the command value 200 in front of a `GET` request. -/
theorem unknown_command_is_ignored_witness :
    (∃ s1, server_iter reference_protocol
        { idle_server (one_file "f".toList "x".toList) with
          inbox := [elem.hdr ⟨cix_command.unknown 200, 7, []⟩,
            elem.hdr (cix_get_header reference_protocol "f".toList)] } = some s1 ∧
      s1.outbox = [] ∧ s1.fs = one_file "f".toList "x".toList ∧ s1.errno = 0 ∧
      s1.inbox = [elem.hdr (cix_get_header reference_protocol "f".toList)] ∧
      s1.log = [] ++ [[log_arg.lit "received header ",
          log_arg.header ⟨cix_command.unknown 200, 7, []⟩],
        [log_arg.lit "invalid header from client:",
          log_arg.header ⟨cix_command.unknown 200, 7, []⟩]]) ∧
    same_but_log
      (run_server reference_protocol (1 + 1)
        { idle_server (one_file "f".toList "x".toList) with
          inbox := [elem.hdr ⟨cix_command.unknown 200, 7, []⟩,
            elem.hdr (cix_get_header reference_protocol "f".toList)] })
      (run_server reference_protocol 1
        { idle_server (one_file "f".toList "x".toList) with
          inbox := [elem.hdr (cix_get_header reference_protocol "f".toList)] }) :=
  unknown_command_is_ignored reference_protocol
    { idle_server (one_file "f".toList "x".toList) with
      inbox := [elem.hdr ⟨cix_command.unknown 200, 7, []⟩,
        elem.hdr (cix_get_header reference_protocol "f".toList)] }
    ⟨cix_command.unknown 200, 7, []⟩
    [elem.hdr (cix_get_header reference_protocol "f".toList)] 1 rfl
    (by decide) (by decide) (by decide) (by decide)

/-! ## The loops reach their end -/

theorem fgets_chars_pos (k : Nat) (c : Char) (rest : Str) :
    0 < (fgets_chars (k + 1) (c :: rest)).length := by
  unfold fgets_chars
  split_ifs <;> simp

theorem fgets_rest_shorter (pipe buffer rest : Str)
    (h : fgets 0x1000 pipe = some (buffer, rest)) : rest.length < pipe.length := by
  rcases pipe with _ | ⟨c, tail⟩
  · simp [fgets] at h
  · simp only [fgets, Option.some.injEq, Prod.mk.injEq] at h
    have hpos : 0 < (fgets_chars (4096 - 1) (c :: tail)).length := fgets_chars_pos 4094 c tail
    rw [← h.2, List.length_drop]
    simp only [List.length_cons] at hpos ⊢
    omega

/-- The loop of `reply_ls` reaches its `break`: a bound above the length of the
pipe is never met. -/
theorem read_ls_pipe_terminates (fuel : Nat) :
    ∀ pipe ls_output : Str, pipe.length < fuel →
      ∃ out, read_ls_pipe fuel pipe ls_output = some out := by
  induction fuel with
  | zero => intro pipe _ h; omega
  | succ n ih =>
    intro pipe ls_output hlen
    unfold read_ls_pipe
    cases hf : fgets 0x1000 pipe with
    | none => exact ⟨_, rfl⟩
    | some r =>
      obtain ⟨buffer, rest⟩ := r
      have := fgets_rest_shorter pipe buffer rest hf
      exact ih rest _ (by omega)

theorem reply_get_inbox (P : protocol) (s s1 : server) (h : cix_header)
    (hs : reply_get P s h = some s1) : s1.inbox = s.inbox := by
  unfold reply_get at hs
  dsimp only at hs
  split at hs
  · simp only [Option.some.injEq] at hs
    rw [← hs]; rfl
  · simp at hs
  · simp only [Option.some.injEq] at hs
    rw [← hs]; rfl

theorem server_unlink_inbox (s : server) (path : Str) : (s.unlink path).inbox = s.inbox := by
  unfold server.unlink
  split <;> rfl

theorem reply_ls_inbox (P : protocol) (s : server) (h : cix_header) :
    (reply_ls P s h).inbox = s.inbox := by
  unfold reply_ls
  cases s.ls_cmd s.fs with
  | failed e => rfl
  | pipe output status => by_cases hs : status < 0 <;> simp [hs, server.logged, server.send_header, server.send_bytes]

theorem reply_rm_inbox (P : protocol) (s : server) (h : cix_header) :
    (reply_rm P s h).inbox = s.inbox := by
  unfold reply_rm
  split
  · rfl
  · exact server_unlink_inbox s _

theorem recv_bytes_length (n : Nat) :
    ∀ (input : List elem) (bytes : Str) (left : List elem),
      recv_bytes n input = some (bytes, left) → left.length ≤ input.length := by
  induction n with
  | zero =>
    intro input bytes left h
    simp only [recv_bytes, Option.some.injEq, Prod.mk.injEq] at h
    rw [h.2]
  | succ n ih =>
    intro input bytes left h
    rcases input with _ | ⟨e, rest⟩
    · simp [recv_bytes] at h
    · cases e with
      | hdr hd => simp [recv_bytes] at h
      | byte c =>
        simp only [recv_bytes] at h
        cases hr : recv_bytes n rest with
        | none => rw [hr] at h; simp at h
        | some r =>
          obtain ⟨b, l⟩ := r
          rw [hr] at h
          simp only [Option.some.injEq, Prod.mk.injEq] at h
          have := ih rest b l hr
          rw [← h.2]
          simp only [List.length_cons]
          omega

theorem reply_put_inbox (P : protocol) (s s1 : server) (h : cix_header)
    (hs : reply_put P s h = some s1) : s1.inbox.length ≤ s.inbox.length := by
  unfold reply_put at hs
  by_cases hc : h.command ≠ cix_command.PUT
  · rw [if_pos hc] at hs
    simp only [Option.some.injEq] at hs
    rw [← hs]
    exact Nat.le_refl _
  · rw [if_neg hc] at hs
    cases hr : recv_bytes h.nbytes s.inbox with
    | none => rw [hr] at hs; simp at hs
    | some r =>
      obtain ⟨b, l⟩ := r
      rw [hr] at hs
      simp only [Option.some.injEq] at hs
      rw [← hs]
      exact recv_bytes_length _ _ _ _ hr

theorem recv_header_some (input : List elem) (hd : cix_header) (left : List elem)
    (h : recv_header input = some (hd, left)) : input = elem.hdr hd :: left := by
  rcases input with _ | ⟨e, rest⟩
  · simp [recv_header] at h
  · cases e with
    | hdr h0 =>
      simp only [recv_header, Option.some.injEq, Prod.mk.injEq] at h
      rw [h.1, h.2]
    | byte c => simp [recv_header] at h

theorem server_iter_inbox (P : protocol) (s s1 : server) (h : server_iter P s = some s1) :
    s1.inbox.length < s.inbox.length := by
  unfold server_iter at h
  cases hr : recv_header s.inbox with
  | none => rw [hr] at h; simp at h
  | some r =>
    obtain ⟨hd, left⟩ := r
    rw [hr] at h
    rw [recv_header_some _ _ _ hr]
    simp only [List.length_cons] at h ⊢
    cases hcmd : hd.command <;> rw [hcmd] at h <;> simp only [] at h
    case GET =>
      rw [reply_get_inbox P _ _ hd h]; exact Nat.lt_succ_self _
    case LS =>
      simp only [Option.some.injEq] at h
      rw [← h, reply_ls_inbox]; exact Nat.lt_succ_self _
    case RM =>
      simp only [Option.some.injEq] at h
      rw [← h, reply_rm_inbox]; exact Nat.lt_succ_self _
    case PUT =>
      have := reply_put_inbox P _ _ hd h
      exact Nat.lt_succ_of_le this
    case ERROR => simp only [Option.some.injEq] at h; rw [← h]; exact Nat.lt_succ_self _
    case EXIT => simp only [Option.some.injEq] at h; rw [← h]; exact Nat.lt_succ_self _
    case HELP => simp only [Option.some.injEq] at h; rw [← h]; exact Nat.lt_succ_self _
    case ACK => simp only [Option.some.injEq] at h; rw [← h]; exact Nat.lt_succ_self _
    case NAK => simp only [Option.some.injEq] at h; rw [← h]; exact Nat.lt_succ_self _
    case FILEOUT => simp only [Option.some.injEq] at h; rw [← h]; exact Nat.lt_succ_self _
    case LSOUT => simp only [Option.some.injEq] at h; rw [← h]; exact Nat.lt_succ_self _
    case unknown raw => simp only [Option.some.injEq] at h; rw [← h]; exact Nat.lt_succ_self _

theorem server_iter_no_input (P : protocol) (s : server) (h : s.inbox = []) :
    server_iter P s = none := by
  unfold server_iter
  rw [h]
  rfl

/-- The loop of `run_server` reaches a state from which no pass completes (the
worker waits, or has ended): a bound of at least the length of the pending input
is never met. -/
theorem run_server_waits (P : protocol) (fuel : Nat) :
    ∀ s : server, s.inbox.length ≤ fuel → server_iter P (run_server P fuel s) = none := by
  induction fuel with
  | zero =>
    intro s h
    exact server_iter_no_input P s (List.length_eq_zero.mp (Nat.le_zero.mp h))
  | succ n ih =>
    intro s h
    unfold run_server
    cases hs : server_iter P s with
    | none => exact hs
    | some s1 =>
      have := server_iter_inbox P s s1 hs
      exact ih s1 (by omega)

theorem serve_waits (P : protocol) (s : server) : server_iter P (serve P s) = none :=
  run_server_waits P _ s (Nat.le_refl _)

theorem run_server_of_waiting (P : protocol) (fuel : Nat) (s : server)
    (h : server_iter P s = none) : run_server P fuel s = s := by
  cases fuel with
  | zero => rfl
  | succ n => simp only [run_server, h]

/-! ## The listener -/

theorem accept_loop_retries (n : Nat) (sock : Nat) (pid : Int) (errno : Nat)
    (zombies : List (Nat × Nat))
    (rest : List accept_outcome) (hpid : 0 < pid) :
    ∀ (log : List log_line) (dispatched : List Nat),
      ∃ log2, accept_loop log dispatched
          (List.replicate n (accept_outcome.failed EINTR) ++
            accept_outcome.accepted sock pid errno zombies :: rest) =
        accept_loop log2 (dispatched ++ [sock]) rest := by
  induction n with
  | zero =>
    intro log dispatched
    have h0 : ¬ pid = 0 := by omega
    have h1 : ¬ pid < 0 := by omega
    simp only [List.replicate, List.nil_append, accept_loop, h0, h1, if_false]
    exact ⟨_, rfl⟩
  | succ n ih =>
    intro log dispatched
    simp only [List.replicate, List.cons_append, accept_loop, if_true]
    exact ih _ _

/-- C10 (counterexample): when the first `accept` fails with the error code 9
(not `EINTR`) and the second call would succeed, `main` of cixd.cpp logs the
error and returns; the second connection is never accepted and no worker is
started. -/
theorem accept_error_ends_listener :
    (9 : Nat) ≠ EINTR ∧
    (cixd_main [accept_outcome.failed 9, accept_outcome.accepted 5 1234 0 []]).ending =
      listener_end.returned ∧
    (cixd_main [accept_outcome.failed 9, accept_outcome.accepted 5 1234 0 []]).dispatched = [] ∧
    (cixd_main [accept_outcome.failed 9, accept_outcome.accepted 5 1234 0 []]).log =
      [[log_arg.lit "starting"], [log_arg.lit " accepting port "],
       [log_arg.strerror 9], [log_arg.lit "finishing"]] := by
  decide

/-- C10 (amended): in the loop of `main` of cixd.cpp, an `accept` that fails
with `EINTR` is logged and retried, any number of times, and the connection
accepted after the retries is handed to a forked worker; an `accept` that fails
with any other error code is logged and ends the listener: `main` logs
`finishing` and returns, whatever the later calls would have given. -/
theorem accept_failures (log : List log_line) (dispatched : List Nat) (e : Nat)
    (n sock : Nat) (pid : Int) (errno : Nat) (zombies : List (Nat × Nat))
    (rest : List accept_outcome)
    (he : e ≠ EINTR) (hpid : 0 < pid) :
    accept_loop log dispatched (accept_outcome.failed EINTR :: rest) =
      accept_loop (log ++ [[log_arg.lit "listener.accept caught ", log_arg.strerror EINTR]])
        dispatched rest ∧
    (∃ log2, accept_loop log dispatched
        (List.replicate n (accept_outcome.failed EINTR) ++
          accept_outcome.accepted sock pid errno zombies :: rest) =
      accept_loop log2 (dispatched ++ [sock]) rest) ∧
    accept_loop log dispatched (accept_outcome.failed e :: rest) =
      { log := log ++ [[log_arg.strerror e], [log_arg.lit "finishing"]],
        dispatched := dispatched, ending := listener_end.returned } := by
  refine ⟨?_, accept_loop_retries n sock pid errno zombies rest hpid log dispatched, ?_⟩
  · simp only [accept_loop, if_true]
  · simp only [accept_loop, he, if_false]

/-- C10 (amended), for the error code 9, two interrupted calls, and the
connection 5 served by the child 1234. -/
theorem accept_failures_witness :
    accept_loop [] [] (accept_outcome.failed EINTR :: [accept_outcome.accepted 7 1 0 []]) =
      accept_loop ([] ++ [[log_arg.lit "listener.accept caught ", log_arg.strerror EINTR]])
        [] [accept_outcome.accepted 7 1 0 []] ∧
    (∃ log2, accept_loop [] []
        (List.replicate 2 (accept_outcome.failed EINTR) ++
          accept_outcome.accepted 5 1234 0 [] :: [accept_outcome.accepted 7 1 0 []]) =
      accept_loop log2 ([] ++ [5]) [accept_outcome.accepted 7 1 0 []]) ∧
    accept_loop [] [] (accept_outcome.failed 9 :: [accept_outcome.accepted 7 1 0 []]) =
      { log := [] ++ [[log_arg.strerror 9], [log_arg.lit "finishing"]],
        dispatched := [], ending := listener_end.returned } :=
  accept_failures [] [] 9 2 5 1234 0 [] [accept_outcome.accepted 7 1 0 []] (by decide) (by decide)

/-! ## Exchanges between the client and the worker -/

theorem serve_step (P : protocol) (s s1 : server) (hiter : server_iter P s = some s1)
    (hwait : server_iter P s1 = none) : serve P s = s1 := by
  have hlen := server_iter_inbox P s s1 hiter
  unfold serve
  obtain ⟨k, hk⟩ : ∃ k, s.inbox.length = k + 1 := ⟨s.inbox.length - 1, by omega⟩
  rw [hk]
  simp only [run_server, hiter]
  exact run_server_of_waiting P k s1 hwait

theorem serve_of_waiting (P : protocol) (s : server) (h : server_iter P s = none) :
    serve P s = s :=
  run_server_of_waiting P _ s h

theorem recv_bytes_payload (n : Nat) :
    ∀ (bytes : Str) (rest : List elem), n ≤ bytes.length →
      recv_bytes n (payload bytes ++ rest) = some (bytes.take n, payload (bytes.drop n) ++ rest) := by
  induction n with
  | zero => intro bytes rest _; rfl
  | succ n ih =>
    intro bytes rest h
    rcases bytes with _ | ⟨c, tail⟩
    · simp at h
    · have := ih tail rest (by simpa using h)
      show (match recv_bytes n (payload tail ++ rest) with
        | some (bytes, left) => some (c :: bytes, left)
        | none => none) = _
      rw [this]
      rfl

theorem recv_bytes_of_payload (n : Nat) (bytes : Str) (h : n ≤ bytes.length) :
    recv_bytes n (payload bytes) = some (bytes.take n, payload (bytes.drop n)) := by
  have := recv_bytes_payload n bytes [] h
  simpa using this

theorem drop_append_cons {α : Type} (base : List α) (x : α) (tail : List α) :
    List.drop (base.length + 1) (base ++ x :: tail) = tail := by
  induction base with
  | nil => rfl
  | cons a base ih => simp

theorem recv_header_payload (P : protocol) (s : server) (bytes : Str)
    (h : s.inbox = payload bytes) : server_iter P s = none := by
  unfold server_iter
  rw [h]
  rcases bytes with _ | ⟨c, tail⟩ <;> rfl

theorem to_nbytes_le (P : protocol) (n : Nat) : to_nbytes P n ≤ n :=
  Nat.mod_le _ _

theorem to_nbytes_of_fits (P : protocol) (n : Nat) (h : n < 2 ^ P.NBYTES_BITS) :
    to_nbytes P n = n :=
  Nat.mod_eq_of_lt h

theorem same_but_log_trans {s t u : server} (h1 : same_but_log s t) (h2 : same_but_log t u) :
    same_but_log s u := by
  obtain ⟨a1, a2, a3, a4, a5, a6, a7, a8⟩ := h1
  obtain ⟨b1, b2, b3, b4, b5, b6, b7, b8⟩ := h2
  exact ⟨a1.trans b1, a2.trans b2, a3.trans b3, a4.trans b4, a5.trans b5, a6.trans b6,
    a7.trans b7, a8.trans b8⟩

theorem is_ignored_hdr (e : elem) (h : is_ignored e = true) :
    ∃ hd, e = elem.hdr hd ∧ hd.command ≠ cix_command.GET ∧ hd.command ≠ cix_command.LS ∧
      hd.command ≠ cix_command.PUT ∧ hd.command ≠ cix_command.RM := by
  cases e with
  | hdr hd => exact ⟨hd, rfl, by simpa [is_ignored] using h⟩
  | byte c => simp [is_ignored] at h

/-- The worker reads the headers it ignores one pass each: with headers it
ignores in front of `tail`, it comes to the state it would be in with `tail`
alone pending, log apart. -/
theorem run_server_skips (P : protocol) (tail : List elem) :
    ∀ (ign : List elem) (s : server) (k : Nat), ign.all is_ignored = true →
      s.inbox = ign ++ tail →
      ∃ base, same_but_log base { s with inbox := tail } ∧
        run_server P (ign.length + k) s = run_server P k base := by
  intro ign
  induction ign with
  | nil =>
    intro s k _ hin
    refine ⟨s, ⟨rfl, rfl, rfl, by simpa using hin, rfl, rfl, rfl, rfl⟩, ?_⟩
    simp
  | cons e ign ih =>
    intro s k hall hin
    simp only [List.all_cons, Bool.and_eq_true] at hall
    obtain ⟨hd, he, hget, hls, hput, hrm⟩ := is_ignored_hdr e hall.1
    subst he
    have hiter := server_iter_unknown P s hd (ign ++ tail) (by simpa using hin) hget hls hput hrm
    obtain ⟨base, hb, hrun⟩ := ih _ k hall.2 (rfl : (({ s with inbox := ign ++ tail }.logged
        [log_arg.lit "received header ", log_arg.header hd]).logged
        [log_arg.lit "invalid header from client:", log_arg.header hd]).inbox = ign ++ tail)
    refine ⟨base, same_but_log_trans hb ⟨rfl, rfl, rfl, rfl, rfl, rfl, rfl, rfl⟩, ?_⟩
    have hk : (e_len : Nat) → e_len + 1 + k = (e_len + k) + 1 := fun _ => by omega
    rw [List.length_cons, hk]
    simp only [run_server, hiter]
    exact hrun

/-- The worker with headers it ignores pending, when `tail` is sent to it: it
runs as it would, log apart, with `tail` alone pending. -/
theorem serve_skips (P : protocol) (s : server) (tail : List elem)
    (hign : s.inbox.all is_ignored = true) :
    ∃ base, same_but_log base { s with inbox := tail } ∧
      serve P { s with inbox := s.inbox ++ tail } = serve P base := by
  obtain ⟨base, hb, hrun⟩ := run_server_skips P tail s.inbox
    { s with inbox := s.inbox ++ tail } tail.length hign rfl
  refine ⟨base, hb, ?_⟩
  have hbi : base.inbox = tail := hb.2.2.2.1
  unfold serve
  rw [hbi]
  simpa using hrun

/-- The worker with nothing but headers it ignores pending: it reads them all
and sends nothing. -/
theorem serve_all_ignored (P : protocol) (s : server) (hign : s.inbox.all is_ignored = true) :
    same_but_log (serve P s) { s with inbox := [] } := by
  obtain ⟨base, hb, hrun⟩ := run_server_skips P [] s.inbox s 0 hign (by simp)
  unfold serve
  have : run_server P s.inbox.length s = base := by simpa [run_server] using hrun
  rw [this]
  exact hb

/-- What `reply_get` does: a lone `NAK` header when the file does not open; a
`FILEOUT` header and the bytes of `get_output` when it opens and reads; nothing,
and no state to go on from, when it opens and the read throws. -/
theorem reply_get_outbox (P : protocol) (s : server) (h : cix_header) :
    (∃ e s1, s.fs (s.path h) = open_result.failed e ∧ reply_get P s h = some s1 ∧
      s1.outbox = s.outbox ++ [elem.hdr ⟨cix_command.NAK, to_nbytes P e, h.filename⟩] ∧
      s1.fs = s.fs ∧ s1.inbox = s.inbox) ∨
    (∃ content s1, s.fs (s.path h) = open_result.opened content ∧
      reply_get P s h = some s1 ∧
      s1.outbox =
        s.outbox ++
          elem.hdr ⟨cix_command.FILEOUT, to_nbytes P (buffered content s.after_buffer).length,
            cleared_filename P⟩ ::
          payload (buffered content s.after_buffer) ∧
      s1.fs = s.fs ∧ s1.inbox = s.inbox) ∨
    (s.fs (s.path h) = open_result.unreadable ∧ reply_get P s h = none) := by
  have hp : s.path { h with command := cix_command.GET } = s.path h := rfl
  unfold reply_get
  simp only [hp]
  cases hopen : s.fs (s.path h) with
  | failed e => exact Or.inl ⟨e, _, rfl, rfl, rfl, rfl, rfl⟩
  | opened content =>
    refine Or.inr (Or.inl ⟨content, _, rfl, rfl, ?_, rfl, rfl⟩)
    simp [server.logged, server.send_header, server.send_bytes]
  | unreadable => exact Or.inr (Or.inr ⟨rfl, rfl⟩)

/-- What `reply_ls` sends: a lone `NAK` header when `popen` fails, else a `LSOUT`
header and the bytes of `ls_output`. -/
theorem reply_ls_outbox (P : protocol) (s : server) (h : cix_header) :
    (∃ e, s.ls_cmd s.fs = popen_result.failed e ∧
      (reply_ls P s h).outbox =
        s.outbox ++ [elem.hdr ⟨cix_command.NAK, to_nbytes P e, h.filename⟩]) ∨
    (∃ output status, s.ls_cmd s.fs = popen_result.pipe output status ∧
      (reply_ls P s h).outbox =
        s.outbox ++
          elem.hdr ⟨cix_command.LSOUT, to_nbytes P (collect_ls_output output).length,
            cleared_filename P⟩ ::
          payload (collect_ls_output output)) := by
  unfold reply_ls
  cases hopen : s.ls_cmd s.fs with
  | failed e => exact Or.inl ⟨e, rfl, rfl⟩
  | pipe output status =>
    refine Or.inr ⟨output, status, rfl, ?_⟩
    by_cases hs : status < 0 <;>
      simp [server.logged, server.send_header, server.send_bytes, hs]

theorem server_unlink_outbox (s : server) (path : Str) :
    (s.unlink path).outbox = s.outbox := by
  unfold server.unlink
  split <;> rfl

/-- What `reply_rm` sends: a lone `NAK` header when the file does not open, else
a lone `ACK` header. -/
theorem reply_rm_outbox (P : protocol) (s : server) (h : cix_header) :
    (∃ e, s.fs (s.path h) = open_result.failed e ∧
      (reply_rm P s h).outbox =
        s.outbox ++ [elem.hdr ⟨cix_command.NAK, to_nbytes P e, h.filename⟩]) ∨
    ((∀ e, s.fs (s.path h) ≠ open_result.failed e) ∧
      (reply_rm P s h).outbox =
        s.outbox ++ [elem.hdr ⟨cix_command.ACK, h.nbytes, cleared_filename P⟩]) := by
  unfold reply_rm
  cases hopen : s.fs (s.path h) with
  | failed e => exact Or.inl ⟨e, rfl, rfl⟩
  | opened content =>
    refine Or.inr ⟨fun e he => (by cases he), ?_⟩
    simp [server.logged, server.send_header, server_unlink_outbox]
  | unreadable =>
    refine Or.inr ⟨fun e he => (by cases he), ?_⟩
    simp [server.logged, server.send_header, server_unlink_outbox]

/-- The worker on one request without payload, sent when all it has pending are
headers it ignores: it comes to a state `base` with nothing pending that is the
state before, log apart, and runs the handler of the request from there. -/
theorem serve_request (P : protocol) (s : server) (h : cix_header)
    (hign : s.inbox.all is_ignored = true) :
    ∃ base, same_but_log base { s with inbox := [] } ∧
      (h.command = cix_command.GET → ∀ s1, reply_get P base h = some s1 →
        serve P { s with inbox := s.inbox ++ [elem.hdr h] } = s1) ∧
      (h.command = cix_command.LS →
        serve P { s with inbox := s.inbox ++ [elem.hdr h] } = reply_ls P base h) ∧
      (h.command = cix_command.RM →
        serve P { s with inbox := s.inbox ++ [elem.hdr h] } = reply_rm P base h) := by
  obtain ⟨b0, hb0, hserve⟩ := serve_skips P s [elem.hdr h] hign
  have hin : b0.inbox = [elem.hdr h] := hb0.2.2.2.1
  refine ⟨{ b0 with inbox := [] }.logged [log_arg.lit "received header ", log_arg.header h],
    ?_, ?_, ?_, ?_⟩
  · obtain ⟨a1, a2, a3, a4, a5, a6, a7, a8⟩ := hb0
    exact ⟨a1, a2, a3, rfl, a5, a6, a7, a8⟩
  · intro hcmd s1 hs1
    rw [hserve]
    apply serve_step
    · simp only [server_iter, hin, recv_header, hcmd]
      exact hs1
    · exact server_iter_no_input P _ (by rw [reply_get_inbox P _ _ h hs1]; rfl)
  · intro hcmd
    rw [hserve]
    apply serve_step
    · simp only [server_iter, hin, recv_header, hcmd]
    · exact server_iter_no_input P _ (by rw [reply_ls_inbox]; rfl)
  · intro hcmd
    rw [hserve]
    apply serve_step
    · simp only [server_iter, hin, recv_header, hcmd]
    · exact server_iter_no_input P _ (by rw [reply_rm_inbox]; rfl)

/-- The worker on a `PUT` header followed by at least `nbytes` payload bytes,
sent when all it has pending are headers it ignores: the file is written, a lone
`ACK` header is sent, and the bytes beyond `nbytes` stay on the stream. -/
theorem serve_put (P : protocol) (s : server) (h : cix_header) (bytes : Str)
    (hign : s.inbox.all is_ignored = true) (hcmd : h.command = cix_command.PUT)
    (hn : h.nbytes ≤ bytes.length) :
    ∃ s1, serve P { s with inbox := s.inbox ++ [elem.hdr h] ++ payload bytes } = s1 ∧
      s1.outbox = s.outbox ++ [elem.hdr ⟨cix_command.ACK, h.nbytes, cleared_filename P⟩] ∧
      s1.fs = fs_write s.fs (s.path h) (c_str (bytes.take h.nbytes ++ [NUL]) ++ [NEWLINE]) ∧
      s1.inbox = payload (bytes.drop h.nbytes) ∧
      s1.after_header = s.after_header ∧ s1.after_buffer = s.after_buffer := by
  have hne : ¬ h.command ≠ cix_command.PUT := fun hc => hc hcmd
  obtain ⟨b0, hb0, hserve⟩ := serve_skips P s (elem.hdr h :: payload bytes) hign
  obtain ⟨a1, a2, a3, a4, a5, a6, a7, a8⟩ := hb0
  have hin : b0.inbox = elem.hdr h :: payload bytes := a4
  have hpath : b0.path h = s.path h := by simp only [server.path]; rw [a6]
  have hiter : server_iter P b0 =
      some (reply_put_ack P
        { ({ b0 with inbox := payload (bytes.drop h.nbytes) }.logged
            [log_arg.lit "received header ", log_arg.header h]).logged
            [log_arg.lit "received ", log_arg.num h.nbytes, log_arg.lit " nbytes"] with
          fs := fs_write b0.fs (b0.path h) (c_str (bytes.take h.nbytes ++ [NUL]) ++ [NEWLINE]) }
        h) := by
    simp only [server_iter, hin, recv_header, hcmd, reply_put, if_neg hne, server.logged,
      recv_bytes_of_payload _ _ hn]
    rfl
  have hs := serve_step P _ _ hiter (recv_header_payload P _ _ rfl)
  rw [List.append_assoc, List.singleton_append, hserve, hs]
  exact ⟨_, rfl,
    by simp [reply_put_ack, server.logged, server.send_header, a5],
    by simp [reply_put_ack, server.logged, server.send_header, a1, hpath],
    rfl,
    by simp [reply_put_ack, server.logged, server.send_header, a6],
    by simp [reply_put_ack, server.logged, server.send_header, a7]⟩

/-- The exchange of `cix_rm` on a connection in step: it completes, the client
sends the lone `RM` header and the worker answers with one header, `ACK` or
`NAK`; the connection is in step again, with nothing pending. -/
theorem cix_rm_exchange (P : protocol) (w : world) (f : Str)
    (hin : w.server.inbox.all is_ignored = true)
    (hrec : w.client.received = w.server.outbox.length) :
    ∃ w1 r, cix_rm P w f = some w1 ∧
      w1.client.sent = w.client.sent ++ [elem.hdr (cix_rm_header P f)] ∧
      w1.server.outbox = w.server.outbox ++ [elem.hdr r] ∧
      (r.command = cix_command.ACK ∨ r.command = cix_command.NAK) ∧
      w1.server.inbox = [] ∧ w1.client.received = w1.server.outbox.length := by
  obtain ⟨B, hB, -, -, hrm⟩ := serve_request P w.server (cix_rm_header P f) hin
  have hserve := hrm rfl
  have hBo : B.outbox = w.server.outbox := hB.2.2.2.2.1
  have hinbox : (reply_rm P B (cix_rm_header P f)).inbox = [] := by
    rw [reply_rm_inbox]; exact hB.2.2.2.1
  rcases reply_rm_outbox P B (cix_rm_header P f) with ⟨e, -, hr⟩ | ⟨-, hr⟩
  · rw [hBo] at hr
    simp only [cix_rm, world.logged, world.send_header, world.recv_header, hserve, hr, hrec,
      List.drop_left, recv_header, if_true]
    exact ⟨_, _, rfl, rfl, hr, Or.inr rfl, hinbox, by simp [hr]⟩
  · rw [hBo] at hr
    simp only [cix_rm, world.logged, world.send_header, world.recv_header, hserve, hr, hrec,
      List.drop_left, recv_header]
    exact ⟨_, _, rfl, rfl, hr, Or.inl rfl, hinbox, by simp [hr]⟩

/-- The exchange of `cix_ls` on a connection in step: it completes, the client
sends the lone `LS` header and the worker answers with one header, `NAK` alone
or `LSOUT` followed by the listing, of which the client reads `nbytes`
bytes. -/
theorem cix_ls_exchange (P : protocol) (w : world)
    (hin : w.server.inbox.all is_ignored = true)
    (hrec : w.client.received = w.server.outbox.length) :
    ∃ w1 r bytes, cix_ls P w = some w1 ∧
      w1.client.sent = w.client.sent ++ [elem.hdr (cix_ls_header P)] ∧
      w1.server.outbox = w.server.outbox ++ elem.hdr r :: payload bytes ∧
      ((r.command = cix_command.NAK ∧ bytes = []) ∨
        (r.command = cix_command.LSOUT ∧ r.nbytes = to_nbytes P bytes.length)) ∧
      w1.server.inbox = [] ∧
      w1.client.received = w.server.outbox.length + 1 + to_nbytes P bytes.length := by
  obtain ⟨B, hB, -, hls, -⟩ := serve_request P w.server (cix_ls_header P) hin
  have hserve := hls rfl
  have hBo : B.outbox = w.server.outbox := hB.2.2.2.2.1
  have hinbox : (reply_ls P B (cix_ls_header P)).inbox = [] := by
    rw [reply_ls_inbox]; exact hB.2.2.2.1
  have hwait := server_iter_no_input P _ hinbox
  rcases reply_ls_outbox P B (cix_ls_header P) with ⟨e, -, hr⟩ | ⟨output, status, -, hr⟩
  · rw [hBo] at hr
    simp only [cix_ls, world.logged, world.send_header, world.recv_header, hserve, hr, hrec,
      List.drop_left, recv_header]
    exact ⟨_, _, [], rfl, rfl, hr, Or.inl ⟨rfl, rfl⟩, hinbox, by simp [to_nbytes]⟩
  · rw [hBo] at hr
    have hle := to_nbytes_le P (collect_ls_output output).length
    simp only [cix_ls, world.logged, world.send_header, world.recv_header, world.recv_bytes,
      hserve, hr, hrec, List.drop_left, recv_header, serve_of_waiting P _ hwait,
      drop_append_cons, recv_bytes_of_payload _ _ hle]
    exact ⟨_, _, _, rfl, rfl, hr, Or.inr ⟨rfl, rfl⟩, hinbox, rfl⟩

theorem same_but_log_path {B s : server} (hB : same_but_log B { s with inbox := [] })
    (h : cix_header) : B.fs (B.path h) = s.fs (s.path h) := by
  obtain ⟨a1, a2, a3, a4, a5, a6, a7, a8⟩ := hB
  simp only [server.path]
  rw [a1, a6]

/-- The exchange of `cix_get` on a connection in step, when the worker cannot
open the file: it completes; the worker answers the `GET` header with one
header, `NAK`; the client then sends a second header, a `NAK`, and the worker,
once it has read it, has sent nothing more. The connection is in step again,
with that `NAK` pending. -/
theorem cix_get_exchange_nak (P : protocol) (w : world) (f : Str) (e : Nat)
    (hin : w.server.inbox.all is_ignored = true)
    (hrec : w.client.received = w.server.outbox.length)
    (hopen : w.server.fs (w.server.path (cix_get_header P f)) = open_result.failed e) :
    ∃ w1, cix_get P w f = some w1 ∧
      w1.client.sent = w.client.sent ++
        [elem.hdr (cix_get_header P f),
         elem.hdr ⟨cix_command.NAK, to_nbytes P w.client.errno, (cix_get_header P f).filename⟩] ∧
      w1.server.outbox = w.server.outbox ++
        [elem.hdr ⟨cix_command.NAK, to_nbytes P e, (cix_get_header P f).filename⟩] ∧
      (serve P w1.server).outbox = w1.server.outbox ∧
      (serve P w1.server).inbox = [] ∧
      (serve P w1.server).fs = w.server.fs ∧
      w1.client.fs = w.client.fs ∧
      w1.server.inbox.all is_ignored = true ∧
      w1.client.received = w1.server.outbox.length := by
  obtain ⟨B, hB, hget, -, -⟩ := serve_request P w.server (cix_get_header P f) hin
  have hBo : B.outbox = w.server.outbox := hB.2.2.2.2.1
  have hBi : B.inbox = [] := hB.2.2.2.1
  have hBf : B.fs = w.server.fs := hB.1
  have hpath := same_but_log_path hB (cix_get_header P f)
  rcases reply_get_outbox P B (cix_get_header P f) with
    ⟨e2, s1, he2, hs1, hr, hfs, hinb⟩ | ⟨content, s1, hc, -⟩ | ⟨hu, -⟩
  · have hee : e2 = e := by
      have : open_result.failed e2 = open_result.failed e := (he2.symm.trans hpath).trans hopen
      simpa using this
    subst hee
    have hserve := hget rfl s1 hs1
    rw [hBo] at hr
    rw [hBi] at hinb
    have hall : ({ s1 with inbox := s1.inbox ++
        [elem.hdr ⟨cix_command.NAK, to_nbytes P w.client.errno,
          (cix_get_header P f).filename⟩] } : server).inbox.all is_ignored = true := by
      simp [hinb, is_ignored]
    have hign := serve_all_ignored P _ hall
    simp only [hr] at hign
    simp only [cix_get, world.logged, world.send_header, world.recv_header, hserve, hr, hrec,
      List.drop_left, recv_header]
    refine ⟨_, rfl, by simp, rfl, ?_, ?_, ?_, rfl, ?_, by simp⟩
    · exact hign.2.2.2.2.1
    · exact hign.2.2.2.1
    · exact hign.1.trans (hfs.trans hBf)
    · simp [hinb, is_ignored]
  · have : open_result.opened content = open_result.failed e :=
      (hc.symm.trans hpath).trans hopen
    simp at this
  · have : open_result.unreadable = open_result.failed e := (hu.symm.trans hpath).trans hopen
    simp at this

/-- The exchange of `cix_get` on a connection in step, when the worker can open
and read the file: it completes; the client sends the lone `GET` header, the
worker answers with one `FILEOUT` header and the bytes of the file that passed
through its buffer; the client reads `nbytes` of them and writes them, up to
their first terminator, and a newline to the local file. -/
theorem cix_get_exchange_fileout (P : protocol) (w : world) (f content : Str)
    (hin : w.server.inbox.all is_ignored = true)
    (hrec : w.client.received = w.server.outbox.length)
    (hopen : w.server.fs (w.server.path (cix_get_header P f)) = open_result.opened content) :
    ∃ w1, cix_get P w f = some w1 ∧
      w1.client.sent = w.client.sent ++ [elem.hdr (cix_get_header P f)] ∧
      w1.server.outbox = w.server.outbox ++
        elem.hdr ⟨cix_command.FILEOUT,
          to_nbytes P (buffered content w.server.after_buffer).length, cleared_filename P⟩ ::
        payload (buffered content w.server.after_buffer) ∧
      w1.client.fs = fs_write w.client.fs (c_str f)
        (c_str ((buffered content w.server.after_buffer).take
          (to_nbytes P (buffered content w.server.after_buffer).length) ++ [NUL]) ++ [NEWLINE]) ∧
      w1.server.inbox = [] ∧ w1.server.fs = w.server.fs ∧
      w1.client.received = w.server.outbox.length + 1 +
        to_nbytes P (buffered content w.server.after_buffer).length := by
  obtain ⟨B, hB, hget, -, -⟩ := serve_request P w.server (cix_get_header P f) hin
  have hBo : B.outbox = w.server.outbox := hB.2.2.2.2.1
  have hBi : B.inbox = [] := hB.2.2.2.1
  have hBf : B.fs = w.server.fs := hB.1
  have hBb : B.after_buffer = w.server.after_buffer := hB.2.2.2.2.2.2.1
  have hpath := same_but_log_path hB (cix_get_header P f)
  rcases reply_get_outbox P B (cix_get_header P f) with
    ⟨e, s1, he, -⟩ | ⟨content2, s1, hc, hs1, hr, hfs, hinb⟩ | ⟨hu, -⟩
  · have : open_result.failed e = open_result.opened content :=
      (he.symm.trans hpath).trans hopen
    simp at this
  · have hcc : content2 = content := by
      have : open_result.opened content2 = open_result.opened content :=
        (hc.symm.trans hpath).trans hopen
      simpa using this
    subst hcc
    have hserve := hget rfl s1 hs1
    rw [hBo, hBb] at hr
    rw [hBi] at hinb
    have hwait := server_iter_no_input P s1 hinb
    have hle := to_nbytes_le P (buffered content2 w.server.after_buffer).length
    simp only [cix_get, world.logged, world.send_header, world.recv_header, world.recv_bytes,
      hserve, hr, hrec, List.drop_left, recv_header, serve_of_waiting P _ hwait,
      drop_append_cons, recv_bytes_of_payload _ _ hle]
    exact ⟨_, rfl, rfl, hr, rfl, hinb, hfs.trans hBf, rfl⟩
  · have : open_result.unreadable = open_result.opened content :=
      (hu.symm.trans hpath).trans hopen
    simp at this

/-- The exchange of `cix_get` when the worker opens the file and cannot read it:
the worker throws in `reply_get`, sends nothing, and the client is left without
an answer. -/
theorem cix_get_exchange_unreadable (P : protocol) (w : world) (f : Str)
    (hin : w.server.inbox.all is_ignored = true)
    (hrec : w.client.received = w.server.outbox.length)
    (hopen : w.server.fs (w.server.path (cix_get_header P f)) = open_result.unreadable) :
    cix_get P w f = none := by
  obtain ⟨b0, hb0, hserve⟩ := serve_skips P w.server [elem.hdr (cix_get_header P f)] hin
  have hin0 : b0.inbox = [elem.hdr (cix_get_header P f)] := hb0.2.2.2.1
  have hbo : b0.outbox = w.server.outbox := hb0.2.2.2.2.1
  have hnone : server_iter P b0 = none := by
    have hp : ({ b0 with inbox := [] }.logged
        [log_arg.lit "received header ", log_arg.header (cix_get_header P f)]).fs
        (({ b0 with inbox := [] }.logged
        [log_arg.lit "received header ", log_arg.header (cix_get_header P f)]).path
          { cix_get_header P f with command := cix_command.GET }) = open_result.unreadable := by
      have h1 : b0.fs = w.server.fs := hb0.1
      have h6 : b0.after_header = w.server.after_header := hb0.2.2.2.2.2.1
      simp only [server.logged, server.path, h1, h6]
      exact hopen
    have hcmd : (cix_get_header P f).command = cix_command.GET := rfl
    simp only [server_iter, hin0, recv_header, hcmd, reply_get, hp]
  simp only [cix_get, world.logged, world.send_header, world.recv_header, hserve,
    serve_of_waiting P _ hnone, hbo, hrec, List.drop_length, recv_header]

/-- The exchange of `cix_put` on a connection in step, for a local file that
opens and reads: it completes; the client sends one `PUT` header and the bytes of
the file that passed through its buffer; the worker writes the bytes it read, up
to their first terminator, and a newline to its file, and answers with one
header, `ACK`. -/
theorem cix_put_exchange (P : protocol) (w : world) (f content : Str)
    (hin : w.server.inbox.all is_ignored = true)
    (hrec : w.client.received = w.server.outbox.length)
    (hopen : w.client.fs (c_str f) = open_result.opened content) :
    ∃ w1, cix_put P w f = some w1 ∧
      w1.client.sent = w.client.sent ++
        elem.hdr ⟨cix_command.PUT, to_nbytes P (buffered content w.client.after_buffer).length,
          strncpy f P.FILENAME_SIZE⟩ ::
        payload (buffered content w.client.after_buffer) ∧
      w1.server.outbox = w.server.outbox ++
        [elem.hdr ⟨cix_command.ACK, to_nbytes P (buffered content w.client.after_buffer).length,
          cleared_filename P⟩] ∧
      w1.server.fs = fs_write w.server.fs
        (read_c_string (strncpy f P.FILENAME_SIZE) w.server.after_header)
        (c_str ((buffered content w.client.after_buffer).take
          (to_nbytes P (buffered content w.client.after_buffer).length) ++ [NUL]) ++ [NEWLINE]) ∧
      w1.server.inbox = payload ((buffered content w.client.after_buffer).drop
        (to_nbytes P (buffered content w.client.after_buffer).length)) ∧
      w1.client.received = w1.server.outbox.length ∧
      w1.client.fs = w.client.fs ∧
      w1.server.after_header = w.server.after_header ∧
      w1.server.after_buffer = w.server.after_buffer ∧
      w1.client.after_buffer = w.client.after_buffer := by
  obtain ⟨s1, hs1, hout, hfs, hinb, hah, hab⟩ := serve_put P w.server
    ⟨cix_command.PUT, to_nbytes P (buffered content w.client.after_buffer).length,
      strncpy f P.FILENAME_SIZE⟩
    (buffered content w.client.after_buffer) hin rfl (to_nbytes_le P _)
  simp only [cix_put, hopen, world.logged, world.send_header, world.send_bytes,
    world.recv_header, cix_put_header, fresh_header, hs1, hout, hrec, List.drop_left,
    recv_header, if_true]
  exact ⟨_, rfl, by simp, hout, hfs, hinb, by simp [hout], rfl, hah, hab, rfl⟩

/-- The `cix_put` of a local path that opens and cannot be read: the client
throws on the read, before it has sent anything. -/
theorem cix_put_unreadable (P : protocol) (w : world) (f : Str)
    (hopen : w.client.fs (c_str f) = open_result.unreadable) : cix_put P w f = none := by
  simp only [cix_put, hopen]

theorem payload_all_ignored (bytes : Str) :
    (payload bytes).all is_ignored = true ↔ bytes = [] := by
  cases bytes with
  | nil => simp [payload]
  | cons c tail => simp [payload, is_ignored]

/-! ## Text that fits its buffer -/

theorem c_str_append_nul (c tail : Str) (h : NUL ∉ c) : c_str (c ++ NUL :: tail) = c := by
  induction c with
  | nil => simp [c_str]
  | cons a c ih =>
    have ha : a ≠ NUL := fun e => h (by simp [e])
    have hc : NUL ∉ c := fun hm => h (by simp [hm])
    have := ih hc
    simp only [c_str, List.cons_append] at this ⊢
    rw [List.takeWhile_cons]
    simp [ha, this]

theorem read_strncpy (src beyond : Str) (n : Nat) (hnul : NUL ∉ src) (hlen : src.length < n) :
    read_c_string (strncpy src n) beyond = src := by
  unfold read_c_string strncpy
  rw [c_str_of_no_nul src hnul, List.take_of_length_le (Nat.le_of_lt hlen)]
  obtain ⟨k, hk⟩ : ∃ k, n - src.length = k + 1 := ⟨n - src.length - 1, by omega⟩
  rw [hk, List.replicate_succ, List.append_assoc, List.cons_append]
  exact c_str_append_nul src _ hnul

theorem buffered_of_short (content beyond : Str) (hnul : NUL ∉ content)
    (hlen : content.length < 0x1000) : buffered content beyond = content :=
  read_strncpy content beyond 0x1000 hnul hlen

theorem c_str_terminated (c : Str) (h : NUL ∉ c) : c_str (c ++ [NUL]) = c :=
  c_str_append_nul c [] h

/-! ## Round trip -/

/-- C1 (the code on the inputs of the claim): for every content `c` without a
zero byte and of fewer than 4095 bytes, in a local file `f` whose name fits the
header, on a connection at rest: `cix_put` of `f` completes and leaves on the
server a file that holds `c` and a newline; the `cix_get` of `f` that follows
completes and leaves the local file with `c` and two newlines, which is not
`c`. -/
theorem put_then_get_adds_newlines (P : protocol) (w : world) (f c : Str)
    (hin : w.server.inbox = []) (hrec : w.client.received = w.server.outbox.length)
    (hf : NUL ∉ f) (hflen : f.length < P.FILENAME_SIZE)
    (hc : NUL ∉ c) (hclen : c.length + 1 < 0x1000) (hbits : 0x1000 ≤ 2 ^ P.NBYTES_BITS)
    (hopen : w.client.fs f = open_result.opened c) :
    ∃ w1 w2, cix_put P w f = some w1 ∧
      w1.server.fs f = open_result.opened (c ++ [NEWLINE]) ∧
      cix_get P w1 f = some w2 ∧
      w2.client.fs f = open_result.opened (c ++ [NEWLINE, NEWLINE]) ∧
      c ++ [NEWLINE, NEWLINE] ≠ c := by
  have hcf : c_str f = f := c_str_of_no_nul f hf
  obtain ⟨w1, hput, -, hout1, hfs1, hinb1, hrec1, hcfs1, hah1, hab1, -⟩ :=
    cix_put_exchange P w f c (by rw [hin]; rfl) hrec (by rw [hcf]; exact hopen)
  have hb : buffered c w.client.after_buffer = c := buffered_of_short c _ hc (by omega)
  have hn : to_nbytes P c.length = c.length := to_nbytes_of_fits P _ (by omega)
  rw [hb, hn, List.take_length, c_str_terminated c hc, read_strncpy f _ _ hf hflen] at hfs1
  rw [hb, hn, List.drop_length] at hinb1
  have hpath : w1.server.path (cix_get_header P f) = f := read_strncpy f _ _ hf hflen
  have hopen1 : w1.server.fs (w1.server.path (cix_get_header P f)) =
      open_result.opened (c ++ [NEWLINE]) := by
    rw [hpath, hfs1]
    simp [fs_write]
  obtain ⟨w2, hget, -, -, hfs2, -, -, -⟩ :=
    cix_get_exchange_fileout P w1 f (c ++ [NEWLINE]) (by rw [hinb1]; rfl) hrec1 hopen1
  have hc2 : NUL ∉ c ++ [NEWLINE] := by
    intro hm
    rcases List.mem_append.mp hm with h | h
    · exact hc h
    · have : NUL = NEWLINE := by simpa using h
      exact absurd this (by decide)
  have hb2 : buffered (c ++ [NEWLINE]) w1.server.after_buffer = c ++ [NEWLINE] :=
    buffered_of_short _ _ hc2 (by simp only [List.length_append, List.length_singleton]; omega)
  have hn2 : to_nbytes P (c ++ [NEWLINE]).length = (c ++ [NEWLINE]).length :=
    to_nbytes_of_fits P _ (by simp only [List.length_append, List.length_singleton]; omega)
  rw [hb2, hn2, List.take_length, c_str_terminated _ hc2, hcf] at hfs2
  refine ⟨w1, w2, hput, ?_, hget, ?_, ?_⟩
  · rw [hfs1]; simp [fs_write]
  · rw [hfs2]; simp [fs_write]
  · intro he
    have := congrArg List.length he
    simp at this

/-- C1 (the code at the failing input): the local file `f` holds the one byte
`a`; after `put f` the file of the server holds `a` and a newline, and after
`get f` the local file holds `a` and two newlines. -/
theorem put_then_get_adds_newlines_witness :
    ∃ w1 w2,
      cix_put reference_protocol (fresh_world (one_file "f".toList "a".toList) no_files)
        "f".toList = some w1 ∧
      w1.server.fs "f".toList = open_result.opened ("a".toList ++ [NEWLINE]) ∧
      cix_get reference_protocol w1 "f".toList = some w2 ∧
      w2.client.fs "f".toList = open_result.opened ("a".toList ++ [NEWLINE, NEWLINE]) ∧
      "a".toList ++ [NEWLINE, NEWLINE] ≠ "a".toList :=
  put_then_get_adds_newlines reference_protocol
    (fresh_world (one_file "f".toList "a".toList) no_files) "f".toList "a".toList
    rfl rfl (by decide) (by decide) (by decide) (by decide) (by decide) rfl

/-! ## Framing and pairing -/

/-- C6: every header sent with a command that bears a payload is followed on the
stream by exactly `nbytes` payload bytes, whenever the length of the payload
fits the `nbytes` field. `reply_get` throws before it sends anything, or sends a
lone `NAK` header, or a `FILEOUT` header and then its payload; `reply_ls` sends
a lone `NAK` header, or a `LSOUT` header and then its payload; `cix_put` of a
file that opens and reads, on a connection at rest, completes and sends a `PUT`
header and then its payload. -/
theorem payload_framing (P : protocol) (s : server) (h : cix_header) (w : world)
    (f content : Str)
    (hin : w.server.inbox = []) (hrec : w.client.received = w.server.outbox.length)
    (hopen : w.client.fs (c_str f) = open_result.opened content) :
    ((s.fs (s.path h) = open_result.unreadable ∧ reply_get P s h = none) ∨
      (∃ s1 r, reply_get P s h = some s1 ∧ s1.outbox = s.outbox ++ [elem.hdr r] ∧
        r.command = cix_command.NAK) ∨
      (∃ s1 r bytes, reply_get P s h = some s1 ∧
        s1.outbox = s.outbox ++ elem.hdr r :: payload bytes ∧
        r.command = cix_command.FILEOUT ∧
        (bytes.length < 2 ^ P.NBYTES_BITS → r.nbytes = bytes.length))) ∧
    ((∃ r, (reply_ls P s h).outbox = s.outbox ++ [elem.hdr r] ∧
        r.command = cix_command.NAK) ∨
      (∃ r bytes, (reply_ls P s h).outbox = s.outbox ++ elem.hdr r :: payload bytes ∧
        r.command = cix_command.LSOUT ∧
        (bytes.length < 2 ^ P.NBYTES_BITS → r.nbytes = bytes.length))) ∧
    (∃ w1 r bytes, cix_put P w f = some w1 ∧
      w1.client.sent = w.client.sent ++ elem.hdr r :: payload bytes ∧
      r.command = cix_command.PUT ∧
      (bytes.length < 2 ^ P.NBYTES_BITS → r.nbytes = bytes.length)) := by
  refine ⟨?_, ?_, ?_⟩
  · rcases reply_get_outbox P s h with ⟨e, s1, -, hs1, hr, -⟩ | ⟨c, s1, -, hs1, hr, -⟩ | hu
    · exact Or.inr (Or.inl ⟨s1, _, hs1, hr, rfl⟩)
    · exact Or.inr (Or.inr ⟨s1, _, _, hs1, hr, rfl, fun hfit => to_nbytes_of_fits P _ hfit⟩)
    · exact Or.inl hu
  · rcases reply_ls_outbox P s h with ⟨e, -, hr⟩ | ⟨output, status, -, hr⟩
    · exact Or.inl ⟨_, hr, rfl⟩
    · exact Or.inr ⟨_, _, hr, rfl, fun hfit => to_nbytes_of_fits P _ hfit⟩
  · obtain ⟨w1, hput, hsent, -⟩ :=
      cix_put_exchange P w f content (by rw [hin]; rfl) hrec hopen
    exact ⟨w1, _, _, hput, hsent, rfl, fun hfit => to_nbytes_of_fits P _ hfit⟩

/-- C6, for `get f` and `ls` in a directory that holds the one-byte file `f`,
and for `put f` of that file on a fresh connection. -/
theorem payload_framing_witness :
    (((idle_server (one_file "f".toList "a".toList)).fs
          ((idle_server (one_file "f".toList "a".toList)).path
            (cix_get_header reference_protocol "f".toList)) = open_result.unreadable ∧
        reply_get reference_protocol (idle_server (one_file "f".toList "a".toList))
          (cix_get_header reference_protocol "f".toList) = none) ∨
      (∃ s1 r, reply_get reference_protocol (idle_server (one_file "f".toList "a".toList))
          (cix_get_header reference_protocol "f".toList) = some s1 ∧
        s1.outbox = (idle_server (one_file "f".toList "a".toList)).outbox ++ [elem.hdr r] ∧
        r.command = cix_command.NAK) ∨
      (∃ s1 r bytes, reply_get reference_protocol
          (idle_server (one_file "f".toList "a".toList))
          (cix_get_header reference_protocol "f".toList) = some s1 ∧
        s1.outbox = (idle_server (one_file "f".toList "a".toList)).outbox ++
          elem.hdr r :: payload bytes ∧
        r.command = cix_command.FILEOUT ∧
        (bytes.length < 2 ^ reference_protocol.NBYTES_BITS → r.nbytes = bytes.length))) ∧
    ((∃ r, (reply_ls reference_protocol (idle_server (one_file "f".toList "a".toList))
          (cix_get_header reference_protocol "f".toList)).outbox =
          (idle_server (one_file "f".toList "a".toList)).outbox ++ [elem.hdr r] ∧
        r.command = cix_command.NAK) ∨
      (∃ r bytes, (reply_ls reference_protocol (idle_server (one_file "f".toList "a".toList))
          (cix_get_header reference_protocol "f".toList)).outbox =
          (idle_server (one_file "f".toList "a".toList)).outbox ++
            elem.hdr r :: payload bytes ∧
        r.command = cix_command.LSOUT ∧
        (bytes.length < 2 ^ reference_protocol.NBYTES_BITS → r.nbytes = bytes.length))) ∧
    (∃ w1 r bytes,
      cix_put reference_protocol (fresh_world (one_file "f".toList "a".toList) no_files)
        "f".toList = some w1 ∧
      w1.client.sent =
        (fresh_world (one_file "f".toList "a".toList) no_files).client.sent ++
          elem.hdr r :: payload bytes ∧
      r.command = cix_command.PUT ∧
      (bytes.length < 2 ^ reference_protocol.NBYTES_BITS → r.nbytes = bytes.length)) :=
  payload_framing reference_protocol (idle_server (one_file "f".toList "a".toList))
    (cix_get_header reference_protocol "f".toList)
    (fresh_world (one_file "f".toList "a".toList) no_files) "f".toList "a".toList
    rfl rfl rfl

/-- C9 (counterexample): `get f` when the server has no file `f`. The client
sends two headers, `GET` and then `NAK`; the worker, once it has read both, has
sent one header, the `NAK` that answers the `GET`: the second header of the
client is not answered, and it was sent after a response that is not
`FILEOUT`. -/
theorem get_of_missing_file_sends_two_headers :
    ∃ w1, cix_get reference_protocol (fresh_world no_files no_files) "f".toList = some w1 ∧
      headers w1.client.sent =
        [cix_get_header reference_protocol "f".toList,
         ⟨cix_command.NAK, 0, strncpy "f".toList 256⟩] ∧
      headers (serve reference_protocol w1.server).outbox =
        [⟨cix_command.NAK, ENOENT, strncpy "f".toList 256⟩] ∧
      (serve reference_protocol w1.server).inbox = [] :=
  ⟨_, rfl, rfl, rfl, rfl⟩

theorem in_step_of (w1 : world) (hin : w1.server.inbox = [])
    (hrec : w1.client.received = w1.server.outbox.length) : in_step w1 :=
  ⟨by rw [hin]; rfl, hrec⟩

theorem of_exchange_running (o : Option world) (w1 : world)
    (h : session.of_exchange o = session.running w1) : o = some w1 := by
  cases o with
  | none => cases h
  | some w => simp only [session.of_exchange, session.running.injEq] at h; rw [h]

theorem length_append_payload (base : List elem) (r : cix_header) (bytes : Str) :
    (base ++ elem.hdr r :: payload bytes).length = base.length + 1 + bytes.length := by
  simp only [payload, List.length_append, List.length_cons, List.length_map]
  omega

/-- A connection in step stays in step through every pass of the command loop
that goes on, unless a payload met on the way is too long for `nbytes`. A fresh
connection is in step (`fresh_world_in_step`): so are all the states the command
loop reaches while the payloads fit. -/
theorem main_iter_keeps_in_step (P : protocol) (w w1 : world) (line : Str)
    (hstep : in_step w) (hrun : main_iter P w line = session.running w1) :
    in_step w1 ∨
    ∃ bytes : Str, 2 ^ P.NBYTES_BITS ≤ bytes.length ∧
      (payload bytes <:+ w1.server.outbox ∨ payload bytes <:+ w1.client.sent) := by
  obtain ⟨hin, hrec⟩ := hstep
  have hin0 : (w.logged [log_arg.lit "command ",
      log_arg.str (truncate_line line)]).server.inbox.all is_ignored = true := hin
  have hrec0 : (w.logged [log_arg.lit "command ",
      log_arg.str (truncate_line line)]).client.received =
      (w.logged [log_arg.lit "command ",
        log_arg.str (truncate_line line)]).server.outbox.length := hrec
  unfold main_iter at hrun
  dsimp only at hrun
  generalize w.logged [log_arg.lit "command ", log_arg.str (truncate_line line)] = w0
    at hrun hin0 hrec0
  clear hin hrec
  rename' hin0 => hin, hrec0 => hrec
  cases hcmd : lookup_command (truncate_line line) <;> rw [hcmd] at hrun <;>
    simp only [] at hrun
  case EXIT => cases hrun
  case HELP =>
    simp only [session.running.injEq] at hrun
    rw [← hrun]
    exact Or.inl ⟨hin, hrec⟩
  case GET =>
    have hget := of_exchange_running _ _ hrun
    cases hopen : w0.server.fs (w0.server.path (cix_get_header P (parse_filename line))) with
    | failed e =>
      obtain ⟨w2, h1, -, -, -, -, -, -, h8, h9⟩ :=
        cix_get_exchange_nak P w0 _ e hin hrec hopen
      have : w2 = w1 := by rw [h1] at hget; exact Option.some.inj hget
      subst this
      exact Or.inl ⟨h8, h9⟩
    | opened content =>
      obtain ⟨w2, h1, -, h3, -, h5, -, h7⟩ :=
        cix_get_exchange_fileout P w0 _ content hin hrec hopen
      have : w2 = w1 := by rw [h1] at hget; exact Option.some.inj hget
      subst this
      by_cases hfit : (buffered content w0.server.after_buffer).length < 2 ^ P.NBYTES_BITS
      · refine Or.inl (in_step_of w2 h5 ?_)
        rw [h7, h3, to_nbytes_of_fits P _ hfit, length_append_payload]
      · refine Or.inr ⟨_, Nat.le_of_not_lt hfit, Or.inl ?_⟩
        rw [h3]
        exact (List.suffix_cons _ _).trans (List.suffix_append _ _)
    | unreadable =>
      rw [cix_get_exchange_unreadable P w0 _ hin hrec hopen] at hget
      cases hget
  case LS =>
    have hls := of_exchange_running _ _ hrun
    obtain ⟨w2, r, bytes, h1, -, h3, h4, h5, h6⟩ := cix_ls_exchange P w0 hin hrec
    have : w2 = w1 := by rw [h1] at hls; exact Option.some.inj hls
    subst this
    by_cases hfit : bytes.length < 2 ^ P.NBYTES_BITS
    · refine Or.inl (in_step_of w2 h5 ?_)
      rw [h6, h3, to_nbytes_of_fits P _ hfit, length_append_payload]
    · refine Or.inr ⟨bytes, Nat.le_of_not_lt hfit, Or.inl ?_⟩
      rw [h3]
      exact (List.suffix_cons _ _).trans (List.suffix_append _ _)
  case PUT =>
    have hput := of_exchange_running _ _ hrun
    cases hopen : w0.client.fs (c_str (parse_filename line)) with
    | failed e =>
      simp only [cix_put, hopen, Option.some.injEq] at hput
      rw [← hput]
      refine Or.inl ⟨?_, hrec⟩
      simp [world.send_header, world.logged, world.set_errno, hin, is_ignored]
    | opened content =>
      obtain ⟨w2, h1, h2, -, -, h5, h6, -⟩ :=
        cix_put_exchange P w0 _ content hin hrec hopen
      have : w2 = w1 := by rw [h1] at hput; exact Option.some.inj hput
      subst this
      by_cases hfit : (buffered content w0.client.after_buffer).length < 2 ^ P.NBYTES_BITS
      · refine Or.inl (in_step_of w2 ?_ h6)
        rw [h5, to_nbytes_of_fits P _ hfit, List.drop_length]
        rfl
      · refine Or.inr ⟨_, Nat.le_of_not_lt hfit, Or.inr ?_⟩
        rw [h2]
        exact (List.suffix_cons _ _).trans (List.suffix_append _ _)
    | unreadable =>
      rw [cix_put_unreadable P w0 _ hopen] at hput
      cases hput
  case RM =>
    have hrm := of_exchange_running _ _ hrun
    obtain ⟨w2, r, h1, -, -, -, h5, h6⟩ := cix_rm_exchange P w0 _ hin hrec
    have : w2 = w1 := by rw [h1] at hrm; exact Option.some.inj hrm
    subst this
    exact Or.inl (in_step_of w2 h5 h6)
  all_goals
    simp only [session.running.injEq] at hrun
    rw [← hrun]
    exact Or.inl ⟨hin, hrec⟩

theorem fresh_world_in_step (local_fs remote_fs : filesystem) :
    in_step (fresh_world local_fs remote_fs) :=
  ⟨rfl, rfl⟩

/-- C9 (amended): in every exchange of the client (`cix_ls`, `cix_rm`, `cix_put`
of a file that opens and reads, `cix_get` of a name that the server does not
open only to fail reading it) run against the worker on a connection in step,
which a fresh connection is and which these exchanges leave when the payload
fits `nbytes`, the exchange completes and the request header (`LS`, `RM`, `PUT`,
`GET`) is answered by exactly one response header, after which the worker
waits. The response to `PUT` is `ACK` and the client sends nothing more. When
the response to `GET` is `FILEOUT` the client sends nothing more; when it is
`NAK` the client sends one more header, a `NAK`, which the worker reads without
sending anything. -/
theorem requests_are_answered_once (P : protocol) (w : world) (f : Str)
    (hstep : in_step w) :
    (∃ w1 r bytes, cix_ls P w = some w1 ∧
      w1.client.sent = w.client.sent ++ [elem.hdr (cix_ls_header P)] ∧
      w1.server.outbox = w.server.outbox ++ elem.hdr r :: payload bytes ∧
      server_iter P w1.server = none ∧
      (bytes.length < 2 ^ P.NBYTES_BITS → in_step w1)) ∧
    (∃ w1 r, cix_rm P w f = some w1 ∧
      w1.client.sent = w.client.sent ++ [elem.hdr (cix_rm_header P f)] ∧
      w1.server.outbox = w.server.outbox ++ [elem.hdr r] ∧
      server_iter P w1.server = none ∧
      in_step w1) ∧
    (∀ content, w.client.fs (c_str f) = open_result.opened content →
      ∃ w1 q bytes r, cix_put P w f = some w1 ∧
        w1.client.sent = w.client.sent ++ elem.hdr q :: payload bytes ∧
        q.command = cix_command.PUT ∧
        w1.server.outbox = w.server.outbox ++ [elem.hdr r] ∧
        r.command = cix_command.ACK ∧
        server_iter P w1.server = none ∧
        (bytes.length < 2 ^ P.NBYTES_BITS → in_step w1)) ∧
    (w.server.fs (w.server.path (cix_get_header P f)) ≠ open_result.unreadable →
      ∃ w1 r bytes, cix_get P w f = some w1 ∧
        w1.server.outbox = w.server.outbox ++ elem.hdr r :: payload bytes ∧
        ((r.command = cix_command.FILEOUT ∧
            w1.client.sent = w.client.sent ++ [elem.hdr (cix_get_header P f)] ∧
            server_iter P w1.server = none ∧
            (bytes.length < 2 ^ P.NBYTES_BITS → in_step w1)) ∨
          (r.command = cix_command.NAK ∧ bytes = [] ∧
            ∃ nak, nak.command = cix_command.NAK ∧
              w1.client.sent =
                w.client.sent ++ [elem.hdr (cix_get_header P f), elem.hdr nak] ∧
              (serve P w1.server).outbox = w1.server.outbox ∧
              (serve P w1.server).inbox = [] ∧
              in_step w1))) := by
  obtain ⟨hin, hrec⟩ := hstep
  refine ⟨?_, ?_, ?_, ?_⟩
  · obtain ⟨w1, r, bytes, h1, h2, h3, h4, h5, h6⟩ := cix_ls_exchange P w hin hrec
    refine ⟨w1, r, bytes, h1, h2, h3, server_iter_no_input P _ h5, fun hfit => ?_⟩
    refine in_step_of w1 h5 ?_
    rw [h6, h3, to_nbytes_of_fits P _ hfit]
    simp only [payload, List.length_append, List.length_cons, List.length_map]
    omega
  · obtain ⟨w1, r, h1, h2, h3, -, h5, h6⟩ := cix_rm_exchange P w f hin hrec
    exact ⟨w1, r, h1, h2, h3, server_iter_no_input P _ h5, in_step_of w1 h5 h6⟩
  · intro content hopen
    obtain ⟨w1, h1, h2, h3, -, h5, h6, -⟩ := cix_put_exchange P w f content hin hrec hopen
    refine ⟨w1, _, _, _, h1, h2, rfl, h3, rfl, recv_header_payload P _ _ h5, fun hfit => ?_⟩
    refine in_step_of w1 ?_ h6
    rw [h5, to_nbytes_of_fits P _ hfit, List.drop_length]
    rfl
  · intro hread
    cases hopen : w.server.fs (w.server.path (cix_get_header P f)) with
    | failed e =>
      obtain ⟨w1, h1, h2, h3, h4, h5, -, -, h8, h9⟩ :=
        cix_get_exchange_nak P w f e hin hrec hopen
      exact ⟨w1, _, [], h1, h3, Or.inr ⟨rfl, rfl, _, rfl, h2, h4, h5, h8, h9⟩⟩
    | opened content =>
      obtain ⟨w1, h1, h2, h3, -, h5, -, h7⟩ :=
        cix_get_exchange_fileout P w f content hin hrec hopen
      refine ⟨w1, _, _, h1, h3, Or.inl ⟨rfl, h2, server_iter_no_input P _ h5, fun hfit => ?_⟩⟩
      refine in_step_of w1 h5 ?_
      rw [h7, h3, to_nbytes_of_fits P _ hfit]
      simp only [payload, List.length_append, List.length_cons, List.length_map]
      omega
    | unreadable => exact absurd hopen hread

/-- C9 (amended), on the connection that the `get` of a file the server has not
leaves, with the `NAK` of the client still unread by the worker, for the file
`f`, which the client has and the server has not. -/
theorem requests_are_answered_once_witness :
    (∃ w1 r bytes, cix_ls reference_protocol world_after_refused_get = some w1 ∧
      w1.client.sent = world_after_refused_get.client.sent ++ [elem.hdr (cix_ls_header reference_protocol)] ∧
      w1.server.outbox = world_after_refused_get.server.outbox ++ elem.hdr r :: payload bytes ∧
      server_iter reference_protocol w1.server = none ∧
      (bytes.length < 2 ^ reference_protocol.NBYTES_BITS → in_step w1)) ∧
    (∃ w1 r, cix_rm reference_protocol world_after_refused_get "f".toList = some w1 ∧
      w1.client.sent = world_after_refused_get.client.sent ++ [elem.hdr (cix_rm_header reference_protocol "f".toList)] ∧
      w1.server.outbox = world_after_refused_get.server.outbox ++ [elem.hdr r] ∧
      server_iter reference_protocol w1.server = none ∧
      in_step w1) ∧
    (∀ content, world_after_refused_get.client.fs (c_str "f".toList) = open_result.opened content →
      ∃ w1 q bytes r, cix_put reference_protocol world_after_refused_get "f".toList = some w1 ∧
        w1.client.sent = world_after_refused_get.client.sent ++ elem.hdr q :: payload bytes ∧
        q.command = cix_command.PUT ∧
        w1.server.outbox = world_after_refused_get.server.outbox ++ [elem.hdr r] ∧
        r.command = cix_command.ACK ∧
        server_iter reference_protocol w1.server = none ∧
        (bytes.length < 2 ^ reference_protocol.NBYTES_BITS → in_step w1)) ∧
    (world_after_refused_get.server.fs (world_after_refused_get.server.path (cix_get_header reference_protocol "f".toList)) ≠ open_result.unreadable →
      ∃ w1 r bytes, cix_get reference_protocol world_after_refused_get "f".toList = some w1 ∧
        w1.server.outbox = world_after_refused_get.server.outbox ++ elem.hdr r :: payload bytes ∧
        ((r.command = cix_command.FILEOUT ∧
            w1.client.sent = world_after_refused_get.client.sent ++ [elem.hdr (cix_get_header reference_protocol "f".toList)] ∧
            server_iter reference_protocol w1.server = none ∧
            (bytes.length < 2 ^ reference_protocol.NBYTES_BITS → in_step w1)) ∨
          (r.command = cix_command.NAK ∧ bytes = [] ∧
            ∃ nak, nak.command = cix_command.NAK ∧
              w1.client.sent =
                world_after_refused_get.client.sent ++ [elem.hdr (cix_get_header reference_protocol "f".toList), elem.hdr nak] ∧
              (serve reference_protocol w1.server).outbox = w1.server.outbox ∧
              (serve reference_protocol w1.server).inbox = [] ∧
              in_step w1))) :=
  requests_are_answered_once reference_protocol world_after_refused_get "f".toList
    ⟨rfl, rfl⟩

end Cix
